import Mathlib

/-!
Verification of the Cluster Cursor Manager (`mongo/s/query/cluster_cursor_manager.h`,
mongodb r5.0.7).

The manager is embedded shallowly:

* Code whose body appears in the header (`CursorEntry::isKillPending`,
  `CursorEntry::releaseCursor`, `CursorEntry::returnCursor`,
  `CircularLogQueue::push`) is translated directly from that source.
* The manager's method bodies live in `cluster_cursor_manager.cpp`, which is not
  part of the source tree given; those operations are modelled from the
  specification (each such definition carries a doc comment starting with
  `Modelled from the spec:`).

Machine integers are `Nat` with explicit `% 2 ^ 32` / bounds where the code
depends on width.  `unordered_map` is an association list.  C++ `invariant(...)`
failures (process aborts) are modelled by an `Option` result: `none` means the
assertion fired.  Mutex/threading is not modelled; each public operation is one
atomic transition, matching the single-mutex design.
-/

namespace CCMgr

/-- Error codes the manager surfaces (`ErrorCodes::...` in the source). -/
inductive ErrorCode where
  | cursorNotFound
  | cursorInUse
  | shutdownInProgress
  | unauthorized
  | sessionMismatch
  deriving DecidableEq, Repr

/-- `CursorId`: a 64-bit integer, upper 32 bits the namespace prefix, lower 32
bits the per-cursor suffix; `0` is reserved for "no cursor".  Cursor ids are
embedded as plain `Nat` (with explicit `2 ^ 64` bounds where width matters);
this abbreviation records the correspondence. -/
abbrev CursorId := Nat

/-- The namespace prefix of a cursor id: its upper 32 bits. -/
def idPrefix (cursorId : Nat) : Nat := cursorId / 2 ^ 32

/-- The per-cursor suffix of a cursor id: its lower 32 bits. -/
def idSuffix (cursorId : Nat) : Nat := cursorId % 2 ^ 32

/-- `ClusterCursorManager::CursorType`. -/
inductive CursorType where
  | singleTarget
  | multiTarget
  deriving DecidableEq, Repr

/-- `ClusterCursorManager::CursorLifetime`. -/
inductive CursorLifetime where
  | mortal
  | immortal
  deriving DecidableEq, Repr

/-- `ClusterCursorManager::CursorState`. -/
inductive CursorState where
  | notExhausted
  | exhausted
  deriving DecidableEq, Repr

/-- The slice of an `OperationContext` the manager touches: its interruption
("kill pending") flag, set by `OperationContext::markKilled`, and the logical
session id of the caller.  `Date_t`, UUIDs, sessions and operation keys are
abstracted to `Nat`. -/
structure OperationContext where
  killPending : Bool := false
  lsid : Option Nat := none
  deriving DecidableEq, Repr

/-- The slice of a `ClusterClientCursor` the manager touches: an identity for
the object, the session it is bound to, and whether `kill`/destruction has been
requested on it. -/
structure ClusterClientCursor where
  payload : Nat
  lsid : Option Nat := none
  killed : Bool := false
  deriving DecidableEq, Repr

/-- `ClusterCursorManager::CursorEntry` (fields as declared in the header).
`_cursor` is present iff the entry is idle; `_operationUsingCursor` is non-null
iff the cursor is checked out. -/
structure CursorEntry where
  cursor : Option ClusterClientCursor := none
  cursorType : CursorType := .singleTarget
  cursorLifetime : CursorLifetime := .mortal
  lastActive : Nat := 0
  lsid : Option Nat := none
  opKey : Option Nat := none
  operationUsingCursor : Option OperationContext := none
  originatingClient : Nat := 0
  authenticatedUsers : List Nat := []
  deriving DecidableEq, Repr

/-- The `CursorEntry` constructor: takes ownership of the cursor, copies its
lsid, snapshots the authenticated users; `_operationUsingCursor` starts null. -/
def mkCursorEntry (cursor : ClusterClientCursor) (cursorType : CursorType)
    (cursorLifetime : CursorLifetime) (lastActive : Nat)
    (authenticatedUsers : List Nat) (clientUUID : Nat) (opKey : Option Nat) :
    CursorEntry :=
  { cursor := some cursor
    cursorType := cursorType
    cursorLifetime := cursorLifetime
    lastActive := lastActive
    lsid := cursor.lsid
    opKey := opKey
    operationUsingCursor := none
    originatingClient := clientUUID
    authenticatedUsers := authenticatedUsers }

/-- `CursorEntry::isKillPending` (body in the header): an entry is kill pending
iff it is checked out by an `OperationContext` that was interrupted; an entry
with no operation using it returns `false` without consulting anything else. -/
def CursorEntry.isKillPending (e : CursorEntry) : Bool :=
  match e.operationUsingCursor with
  | none => false
  | some op => op.killPending

/-- `CursorEntry::releaseCursor` (body in the header): asserts that no
operation is using the cursor and that the cursor is present, then records
`opCtx` as the operation using the cursor and moves the cursor out.  `none`
models an `invariant` failure. -/
def CursorEntry.releaseCursor (e : CursorEntry) (opCtx : OperationContext) :
    Option (ClusterClientCursor × CursorEntry) :=
  match e.operationUsingCursor, e.cursor with
  | none, some c =>
      some (c, { e with cursor := none, operationUsingCursor := some opCtx })
  | _, _ => none

/-- `CursorEntry::returnCursor` (body in the header): asserts that the entry
holds no cursor and that an operation is using it, then stores the returned
cursor and clears `_operationUsingCursor`.  `none` models an `invariant`
failure. -/
def CursorEntry.returnCursor (e : CursorEntry) (c : ClusterClientCursor) :
    Option CursorEntry :=
  match e.cursor, e.operationUsingCursor with
  | none, some _ =>
      some { e with cursor := some c, operationUsingCursor := none }
  | _, _ => none

/-- The entry exclusivity invariant: the entry holds its cursor iff no
operation is using it (exactly one of {cursor present, current operation
non-null} holds). -/
def wfEntry (e : CursorEntry) : Prop :=
  e.cursor.isSome ↔ e.operationUsingCursor = none

instance (e : CursorEntry) : Decidable (wfEntry e) := by
  unfold wfEntry; infer_instance

/-!
### Association lists

`stdx::unordered_map` is embedded as an association list together with a
no-duplicate-keys invariant on reachable states.  `lookupA` is `find`,
`eraseA` is `erase`, `updateA` rewrites the value stored under a key.
-/

section AssocList

variable {α : Type} {β : Type} [DecidableEq α]

/-- First value stored under key `k`. -/
def lookupA (k : α) : List (α × β) → Option β
  | [] => none
  | (k', v) :: rest => if k' = k then some v else lookupA k rest

/-- Remove the first pair stored under key `k`. -/
def eraseA (k : α) : List (α × β) → List (α × β)
  | [] => []
  | (k', v) :: rest => if k' = k then rest else (k', v) :: eraseA k rest

/-- Rewrite the value stored under key `k` (first occurrence) with `f`. -/
def updateA (k : α) (f : β → β) : List (α × β) → List (α × β)
  | [] => []
  | (k', v) :: rest =>
      if k' = k then (k', f v) :: rest else (k', v) :: updateA k f rest

@[simp] theorem lookupA_nil (k : α) : lookupA k ([] : List (α × β)) = none := rfl

@[simp] theorem lookupA_cons (k k' : α) (v : β) (l : List (α × β)) :
    lookupA k ((k', v) :: l) = if k' = k then some v else lookupA k l := rfl

theorem lookupA_mem {k : α} {v : β} {l : List (α × β)}
    (h : lookupA k l = some v) : (k, v) ∈ l := by
  induction l with
  | nil => simp [lookupA] at h
  | cons p rest ih =>
      obtain ⟨k', v'⟩ := p
      by_cases hk : k' = k
      · subst hk
        simp [lookupA] at h
        simp [h]
      · simp [lookupA, hk] at h
        exact List.mem_cons_of_mem _ (ih h)

theorem lookupA_eq_none_iff {k : α} {l : List (α × β)} :
    lookupA k l = none ↔ k ∉ l.map Prod.fst := by
  induction l with
  | nil => simp
  | cons p rest ih =>
      obtain ⟨k', v'⟩ := p
      by_cases hk : k' = k
      · subst hk; simp [lookupA]
      · simp [lookupA, hk, ih, Ne.symm hk]

theorem mem_lookupA {k : α} {v : β} {l : List (α × β)}
    (hnd : (l.map Prod.fst).Nodup) (h : (k, v) ∈ l) : lookupA k l = some v := by
  induction l with
  | nil => simp at h
  | cons p rest ih =>
      obtain ⟨k', v'⟩ := p
      simp only [List.map_cons, List.nodup_cons] at hnd
      rcases List.mem_cons.mp h with heq | hmem
      · cases heq
        simp [lookupA]
      · have hk : k' ≠ k := by
          rintro rfl
          exact hnd.1 (List.mem_map.mpr ⟨(k', v), hmem, rfl⟩)
        simp [lookupA, hk, ih hnd.2 hmem]

theorem lookupA_isSome_of_mem {k : α} {v : β} {l : List (α × β)}
    (h : (k, v) ∈ l) : (lookupA k l).isSome := by
  induction l with
  | nil => simp at h
  | cons p rest ih =>
      obtain ⟨k', v'⟩ := p
      by_cases hk : k' = k
      · simp [lookupA, hk]
      · rcases List.mem_cons.mp h with heq | hmem
        · cases heq; simp at hk
        · simp [lookupA, hk, ih hmem]

theorem eraseA_sublist (k : α) (l : List (α × β)) :
    List.Sublist (eraseA k l) l := by
  induction l with
  | nil => simp [eraseA]
  | cons p rest ih =>
      obtain ⟨k', v'⟩ := p
      by_cases hk : k' = k
      · simp [eraseA, hk]
      · simp only [eraseA, if_neg hk]
        exact ih.cons₂ (k', v')

theorem mem_of_mem_eraseA {k : α} {q : α × β} {l : List (α × β)}
    (h : q ∈ eraseA k l) : q ∈ l := (eraseA_sublist k l).mem h

theorem map_fst_eraseA_sublist (k : α) (l : List (α × β)) :
    List.Sublist ((eraseA k l).map Prod.fst) (l.map Prod.fst) :=
  (eraseA_sublist k l).map _

theorem lookupA_eraseA_ne {k k' : α} (hne : k' ≠ k) (l : List (α × β)) :
    lookupA k' (eraseA k l) = lookupA k' l := by
  induction l with
  | nil => simp [eraseA]
  | cons p rest ih =>
      obtain ⟨ka, va⟩ := p
      by_cases hk : ka = k
      · subst hk
        have hka : ka ≠ k' := fun h => hne h.symm
        simp [eraseA, lookupA, hka]
      · simp only [eraseA, if_neg hk, lookupA_cons]
        by_cases hk' : ka = k' <;> simp [hk', ih]

theorem lookupA_eraseA_self {k : α} {l : List (α × β)}
    (hnd : (l.map Prod.fst).Nodup) : lookupA k (eraseA k l) = none := by
  induction l with
  | nil => simp [eraseA]
  | cons p rest ih =>
      obtain ⟨ka, va⟩ := p
      simp only [List.map_cons, List.nodup_cons] at hnd
      by_cases hk : ka = k
      · subst hk
        simp only [eraseA, if_pos rfl]
        exact lookupA_eq_none_iff.mpr hnd.1
      · simp [eraseA, hk, lookupA, ih hnd.2]

theorem mem_eraseA_of_ne {k : α} {q : α × β} {l : List (α × β)}
    (hq : q ∈ l) (hne : q.1 ≠ k) : q ∈ eraseA k l := by
  induction l with
  | nil => simp at hq
  | cons p rest ih =>
      obtain ⟨ka, va⟩ := p
      by_cases hk : ka = k
      · subst hk
        rcases List.mem_cons.mp hq with heq | hmem
        · exact absurd (congrArg Prod.fst heq) hne
        · simpa [eraseA] using hmem
      · rcases List.mem_cons.mp hq with heq | hmem
        · subst heq; simp [eraseA, hk]
        · simp [eraseA, hk, ih hmem]

@[simp] theorem map_fst_updateA (k : α) (f : β → β) (l : List (α × β)) :
    (updateA k f l).map Prod.fst = l.map Prod.fst := by
  induction l with
  | nil => simp [updateA]
  | cons p rest ih =>
      obtain ⟨ka, va⟩ := p
      by_cases hk : ka = k <;> simp [updateA, hk, ih]

theorem lookupA_updateA_self (k : α) (f : β → β) (l : List (α × β)) :
    lookupA k (updateA k f l) = (lookupA k l).map f := by
  induction l with
  | nil => simp [updateA]
  | cons p rest ih =>
      obtain ⟨ka, va⟩ := p
      by_cases hk : ka = k <;> simp [updateA, hk, lookupA, ih]

theorem lookupA_updateA_ne {k k' : α} (hne : k' ≠ k) (f : β → β)
    (l : List (α × β)) : lookupA k' (updateA k f l) = lookupA k' l := by
  induction l with
  | nil => simp [updateA]
  | cons p rest ih =>
      obtain ⟨ka, va⟩ := p
      by_cases hk : ka = k
      · subst hk
        have : ka ≠ k' := fun h => hne h.symm
        simp [updateA, lookupA, this]
      · simp only [updateA, if_neg hk, lookupA_cons]
        by_cases hk' : ka = k' <;> simp [hk', ih]

theorem mem_updateA {k : α} {f : β → β} {q : α × β} {l : List (α × β)}
    (h : q ∈ updateA k f l) : q ∈ l ∨ ∃ v, (k, v) ∈ l ∧ q = (k, f v) := by
  induction l with
  | nil => simp [updateA] at h
  | cons p rest ih =>
      obtain ⟨ka, va⟩ := p
      by_cases hk : ka = k
      · subst hk
        simp only [updateA, if_pos rfl] at h
        rcases List.mem_cons.mp h with heq | hmem
        · exact Or.inr ⟨va, List.mem_cons_self _ _, heq⟩
        · exact Or.inl (List.mem_cons_of_mem _ hmem)
      · simp only [updateA, if_neg hk] at h
        rcases List.mem_cons.mp h with heq | hmem
        · exact Or.inl (heq ▸ List.mem_cons_self _ _)
        · rcases ih hmem with h1 | ⟨v, hv, hq⟩
          · exact Or.inl (List.mem_cons_of_mem _ h1)
          · exact Or.inr ⟨v, List.mem_cons_of_mem _ hv, hq⟩

end AssocList

/-!
### Diagnostic ring log (`ClusterCursorManager::LogEvent`, `CircularLogQueue`)

`CircularLogQueue::push` has its body in the header and is translated
directly.  `retained` gives the logical content of the queue: the events from
`start` up to (excluding) `end` in circular order, the convention by which the
indices are maintained (`start == end` is the empty queue).
-/

/-- `ClusterCursorManager::LogEvent::Type`. -/
inductive LogEventType where
  | registerAttempt
  | registerComplete
  | checkoutAttempt
  | checkoutComplete
  | checkInAttempt
  | checkInCompleteCursorSaved
  | detachAttempt
  | detachComplete
  | namespaceEntryMapErased
  | removeCursorsSatisfyingPredicateAttempt
  | removeCursorsSatisfyingPredicateComplete
  | killCursorAttempt
  | cursorMarkedForDeletionBySatisfyingPredicate
  deriving DecidableEq, Repr

/-- `ClusterCursorManager::LogEvent`.  Namespaces are abstracted to `String`. -/
structure LogEvent where
  type : LogEventType := .registerAttempt
  cursorId : Option Nat := none
  time : Option Nat := none
  nss : Option String := none
  deriving DecidableEq, Repr

instance : Inhabited LogEvent := ⟨{}⟩

/-- `ClusterCursorManager::CircularLogQueue`: `std::vector<LogEvent> events{512}`
(512 value-initialized slots), `size_t start = 0`, `size_t end = 0`.  The source
field `end` is a reserved word in Lean and is rendered `endIdx`. -/
structure CircularLogQueue where
  events : List LogEvent := List.replicate 512 default
  start : Nat := 0
  endIdx : Nat := 0
  deriving DecidableEq, Repr

/-- `CircularLogQueue::push` (body in the header): write at `end`, advance
`end` modulo `events.size()`, and if `end` has caught up with `start`, advance
`start` as well (dropping the oldest retained event). -/
def CircularLogQueue.push (q : CircularLogQueue) (e : LogEvent) :
    CircularLogQueue :=
  let events := q.events.set q.endIdx e
  let endIdx := (q.endIdx + 1) % events.length
  if endIdx = q.start then
    { events := events, start := (q.start + 1) % events.length, endIdx := endIdx }
  else
    { events := events, start := q.start, endIdx := endIdx }

/-- Number of retained events: distance from `start` to `end` around the ring. -/
def CircularLogQueue.count (q : CircularLogQueue) : Nat :=
  (q.endIdx + q.events.length - q.start) % q.events.length

/-- `n` slots of `ev`, starting at index `s` and wrapping around. -/
def retainedAux (ev : List LogEvent) (s : Nat) : Nat → List LogEvent
  | 0 => []
  | n + 1 => ev.getD (s % ev.length) default :: retainedAux ev (s + 1) n

/-- The logical content of the queue: slots from `start` (inclusive) to `end`
(exclusive), in circular order, oldest first. -/
def CircularLogQueue.retained (q : CircularLogQueue) : List LogEvent :=
  retainedAux q.events q.start q.count

/-- Push a whole list of events, oldest first. -/
def CircularLogQueue.pushAll (q : CircularLogQueue) (es : List LogEvent) :
    CircularLogQueue :=
  es.foldl CircularLogQueue.push q

/-- Well-formedness of the queue indices: the slot vector has its original 512
slots and both indices are in range. -/
def CircularLogQueue.Shape (q : CircularLogQueue) : Prop :=
  q.events.length = 512 ∧ q.start < 512 ∧ q.endIdx < 512

/-- The last `n` elements of a list. -/
def lastN (n : Nat) (l : List LogEvent) : List LogEvent := l.drop (l.length - n)

@[simp] theorem retainedAux_length (ev : List LogEvent) (s n : Nat) :
    (retainedAux ev s n).length = n := by
  induction n generalizing s with
  | zero => rfl
  | succ n ih => simp [retainedAux, ih]

theorem getD_set_ne {l : List LogEvent} {i j : Nat} (a d : LogEvent)
    (h : i ≠ j) : (l.set i a).getD j d = l.getD j d := by
  induction l generalizing i j with
  | nil => simp
  | cons x xs ih =>
      cases i with
      | zero =>
          cases j with
          | zero => simp at h
          | succ j => simp [List.set, List.getD]
      | succ i =>
          cases j with
          | zero => simp [List.set, List.getD]
          | succ j =>
              have : i ≠ j := fun hc => h (by simp [hc])
              simp only [List.set, List.getD_cons_succ]
              exact ih this

theorem getD_set_self {l : List LogEvent} {i : Nat} (a d : LogEvent)
    (h : i < l.length) : (l.set i a).getD i d = a := by
  induction l generalizing i with
  | nil => simp at h
  | cons x xs ih =>
      cases i with
      | zero => simp [List.set, List.getD]
      | succ i =>
          simp only [List.set, List.getD_cons_succ]
          exact ih (by simpa using h)

/-- `retainedAux` depends only on the slot values it reads. -/
theorem retainedAux_congr {ev ev' : List LogEvent} {s s' : Nat} (n : Nat)
    (_hlen : ev'.length = ev.length)
    (h : ∀ i < n, ev'.getD ((s' + i) % ev'.length) default
        = ev.getD ((s + i) % ev.length) default) :
    retainedAux ev' s' n = retainedAux ev s n := by
  induction n generalizing s s' with
  | zero => rfl
  | succ n ih =>
      simp only [retainedAux]
      refine congrArg₂ _ ?_ (ih ?_)
      · simpa using h 0 (Nat.succ_pos n)
      · intro i hi
        have := h (i + 1) (by omega)
        simpa [Nat.add_assoc, Nat.add_comm 1 i, Nat.add_left_comm] using this

theorem retainedAux_snoc (ev : List LogEvent) (s n : Nat) :
    retainedAux ev s (n + 1)
      = retainedAux ev s n ++ [ev.getD ((s + n) % ev.length) default] := by
  induction n generalizing s with
  | zero => simp [retainedAux]
  | succ n ih =>
      calc retainedAux ev s (n + 2)
          = ev.getD (s % ev.length) default :: retainedAux ev (s + 1) (n + 1) := rfl
        _ = ev.getD (s % ev.length) default ::
              (retainedAux ev (s + 1) n ++ [ev.getD ((s + 1 + n) % ev.length) default]) := by
              rw [ih]
        _ = retainedAux ev s (n + 1) ++ [ev.getD ((s + (n + 1)) % ev.length) default] := by
              simp [retainedAux, Nat.add_assoc, Nat.add_comm 1 n]

theorem shape_push {q : CircularLogQueue} (hq : q.Shape) (e : LogEvent) :
    (q.push e).Shape := by
  obtain ⟨hlen, hs, he⟩ := hq
  unfold CircularLogQueue.push
  simp only [List.length_set, hlen]
  split
  · exact ⟨by simp [List.length_set, hlen],
      Nat.mod_lt _ (by omega), Nat.mod_lt _ (by omega)⟩
  · exact ⟨by simp [List.length_set, hlen], hs, Nat.mod_lt _ (by omega)⟩

theorem count_lt {q : CircularLogQueue} (hq : q.Shape) : q.count < 512 := by
  obtain ⟨hlen, hs, he⟩ := hq
  unfold CircularLogQueue.count
  rw [hlen]
  omega

/-- One push appends the event to the retained content; when 511 events are
already retained, the oldest is dropped. -/
theorem retained_push {q : CircularLogQueue} (hq : q.Shape) (e : LogEvent) :
    (q.push e).retained
      = if q.count < 511 then q.retained ++ [e] else q.retained.drop 1 ++ [e] := by
  obtain ⟨hlen, hs, he⟩ := hq
  have hlen' : (q.events.set q.endIdx e).length = 512 := by
    simp [List.length_set, hlen]
  have hset_self : (q.events.set q.endIdx e).getD q.endIdx default = e :=
    getD_set_self e default (by omega)
  have hset_ne : ∀ j, j ≠ q.endIdx →
      (q.events.set q.endIdx e).getD j default = q.events.getD j default :=
    fun j hj => getD_set_ne e default (fun hc => hj hc.symm)
  by_cases hwrap : (q.endIdx + 1) % (q.events.set q.endIdx e).length = q.start
  · -- eviction: the ring was holding 511 events
    rw [hlen'] at hwrap
    have hcount : q.count = 511 := by
      unfold CircularLogQueue.count
      rw [hlen]
      omega
    have hq' : q.push e
        = { events := q.events.set q.endIdx e,
            start := (q.start + 1) % 512,
            endIdx := (q.endIdx + 1) % 512 } := by
      unfold CircularLogQueue.push
      simp only [List.length_set, hlen]
      rw [if_pos hwrap]
    have hcount' :
        ({ events := q.events.set q.endIdx e,
           start := (q.start + 1) % 512,
           endIdx := (q.endIdx + 1) % 512 } : CircularLogQueue).count = 511 := by
      unfold CircularLogQueue.count
      dsimp only
      simp only [List.length_set, hlen]
      omega
    rw [if_neg (by omega)]
    rw [hq']
    unfold CircularLogQueue.retained
    simp only [hcount', hcount, hlen, hlen']
    -- new content: 510 untouched slots shifted by one, then the new event
    have h511 : (511 : Nat) = 510 + 1 := rfl
    rw [h511, retainedAux_snoc]
    have hidx : ((q.start + 1) % 512 + 510) % (q.events.set q.endIdx e).length
        = q.endIdx := by
      rw [hlen']
      omega
    rw [hlen'] at hidx ⊢
    have hdrop : retainedAux q.events q.start (510 + 1)
        = q.events.getD (q.start % q.events.length) default
            :: retainedAux q.events (q.start + 1) 510 := rfl
    rw [hdrop]
    simp only [List.drop_succ_cons, List.drop_zero]
    refine congrArg₂ _ ?_ (by rw [hidx, hset_self])
    refine retainedAux_congr 510 (by simp) ?_
    intro i hi
    rw [hlen', hlen]
    have hne : ((q.start + 1) % 512 + i) % 512 ≠ q.endIdx := by omega
    rw [show ((q.start + 1) % 512 + i) % 512 = (q.start + 1 + i) % 512 by omega]
      at hne ⊢
    exact hset_ne _ hne
  · -- no eviction: fewer than 511 events were retained
    rw [hlen'] at hwrap
    have hcount : q.count < 511 := by
      unfold CircularLogQueue.count
      rw [hlen]
      omega
    have hq' : q.push e
        = { events := q.events.set q.endIdx e,
            start := q.start,
            endIdx := (q.endIdx + 1) % 512 } := by
      unfold CircularLogQueue.push
      simp only [List.length_set, hlen]
      rw [if_neg hwrap]
    have hcount' :
        ({ events := q.events.set q.endIdx e,
           start := q.start,
           endIdx := (q.endIdx + 1) % 512 } : CircularLogQueue).count
          = q.count + 1 := by
      unfold CircularLogQueue.count
      dsimp only
      simp only [List.length_set, hlen]
      omega
    rw [if_pos hcount, hq']
    unfold CircularLogQueue.retained
    simp only [hcount']
    rw [retainedAux_snoc]
    have hidx : (q.start + q.count) % (q.events.set q.endIdx e).length = q.endIdx := by
      rw [hlen']
      unfold CircularLogQueue.count
      rw [hlen]
      unfold CircularLogQueue.count at hcount
      rw [hlen] at hcount
      omega
    refine congrArg₂ _ ?_ (by rw [hidx, hset_self])
    refine retainedAux_congr q.count (by simp) ?_
    intro i hi
    rw [hlen', hlen]
    have hne : (q.start + i) % 512 ≠ q.endIdx := by
      unfold CircularLogQueue.count at hcount hi
      rw [hlen] at hcount hi
      omega
    exact hset_ne _ hne

theorem lastN_cons_of_le {x : LogEvent} {l : List LogEvent} {k : Nat}
    (h : k ≤ l.length) : lastN k (x :: l) = lastN k l := by
  unfold lastN
  have : (x :: l).length - k = (l.length - k) + 1 := by
    simp only [List.length_cons]
    omega
  rw [this, List.drop_succ_cons]

theorem lastN_of_le {l : List LogEvent} {k : Nat} (h : l.length ≤ k) :
    lastN k l = l := by
  unfold lastN
  rw [Nat.sub_eq_zero_of_le h, List.drop_zero]

/-- Pushing a list of events into a well-formed queue leaves the last 511 of
(old content ++ new events) retained. -/
theorem retained_pushAll {q : CircularLogQueue} (hq : q.Shape)
    (es : List LogEvent) :
    (q.pushAll es).retained = lastN 511 (q.retained ++ es) := by
  induction es generalizing q with
  | nil =>
      simp only [CircularLogQueue.pushAll, List.foldl_nil, List.append_nil]
      have : q.retained.length ≤ 511 := by
        unfold CircularLogQueue.retained
        rw [retainedAux_length]
        have := count_lt hq
        omega
      exact (lastN_of_le this).symm
  | cons e es ih =>
      have hstep : q.pushAll (e :: es) = (q.push e).pushAll es := rfl
      rw [hstep, ih (shape_push hq e), retained_push hq e]
      by_cases hc : q.count < 511
      · rw [if_pos hc]
        simp [List.append_assoc]
      · rw [if_neg hc]
        have hlenr : q.retained.length = q.count := by
          unfold CircularLogQueue.retained; exact retainedAux_length _ _ _
        have hc511 : q.count = 511 := by
          have := count_lt hq
          omega
        obtain ⟨x, r, hr⟩ : ∃ x r, q.retained = x :: r := by
          cases hxr : q.retained with
          | nil => rw [hxr] at hlenr; simp [hc511] at hlenr
          | cons x r => exact ⟨x, r, rfl⟩
        rw [hr]
        simp only [List.drop_succ_cons, List.drop_zero, List.cons_append]
        rw [lastN_cons_of_le]
        · simp [List.append_assoc]
        · have : r.length = 510 := by
            rw [hr] at hlenr
            simp only [List.length_cons] at hlenr
            omega
          simp only [List.length_append, List.length_cons, this]
          omega

/-!
### The registry

Data members as declared in the header: the shutdown flag, the prefix-to-
namespace map, the namespace-to-container map and the timed-out counter.  The
clock and random sources are injected: operations that read the clock take a
`now` argument, and id allocation consumes explicit lists of random draws
(each draw truncated to 32 bits), matching the retry loops described by the
spec.  The diagnostic log is kept out of the registry state; it records
events, never influences behaviour, and is analysed separately above.
-/

/-- `ClusterCursorManager::CursorEntryContainer`: all cursors of one namespace,
sharing the container's 32-bit id prefix. -/
structure CursorEntryContainer where
  containerPrefix : Nat
  entryMap : List (Nat × CursorEntry)
  deriving DecidableEq, Repr

/-- `ClusterCursorManager` state. -/
structure ClusterCursorManager where
  inShutdown : Bool := false
  cursorIdPrefixToNamespaceMap : List (Nat × String) := []
  namespaceToContainerMap : List (String × CursorEntryContainer) := []
  cursorsTimedOut : Nat := 0
  deriving DecidableEq, Repr

/-- The freshly constructed manager: empty maps, not shutting down. -/
def initialManager : ClusterCursorManager := {}

/-- `ClusterCursorManager::_getEntry`: the entry registered under
`(nss, cursorId)`, if any. -/
def getEntry (m : ClusterCursorManager) (nss : String) (cursorId : Nat) :
    Option CursorEntry :=
  match lookupA nss m.namespaceToContainerMap with
  | none => none
  | some container => lookupA cursorId container.entryMap

/-- Replace the entry stored under `(nss, cursorId)` by `e`. -/
def setEntry (m : ClusterCursorManager) (nss : String) (cursorId : Nat)
    (e : CursorEntry) : ClusterCursorManager :=
  { m with
    namespaceToContainerMap :=
      updateA nss
        (fun c => { c with entryMap := updateA cursorId (fun _ => e) c.entryMap })
        m.namespaceToContainerMap }

/-- Modelled from the spec: erasing an entry, and — when that empties its
container — erasing the container together with its prefix-map entry
(`ClusterCursorManager::eraseContainer`; spec 4.4: "When a container empties
(last entry erased), both the namespace-to-container entry and the
prefix-to-namespace entry are removed together"). -/
def eraseEntryAndMaybeContainer (m : ClusterCursorManager) (nss : String)
    (cursorId : Nat) : ClusterCursorManager :=
  match lookupA nss m.namespaceToContainerMap with
  | none => m
  | some container =>
      let entryMap := eraseA cursorId container.entryMap
      if entryMap.isEmpty then
        { m with
          namespaceToContainerMap := eraseA nss m.namespaceToContainerMap,
          cursorIdPrefixToNamespaceMap :=
            eraseA container.containerPrefix m.cursorIdPrefixToNamespaceMap }
      else
        { m with
          namespaceToContainerMap :=
            updateA nss (fun c => { c with entryMap := eraseA cursorId c.entryMap })
              m.namespaceToContainerMap }

/-- Modelled from the spec: suffix allocation for `registerCursor` — "drawing
random 32-bit suffixes until unused (suffix 0 and collisions are retried)".
Each draw is truncated to 32 bits; the cursor id is prefix followed by suffix.
`none` means the supplied draws were exhausted (the loop did not finish). -/
def pickFreshCursorId (entryMap : List (Nat × CursorEntry))
    (containerPrefix : Nat) : List Nat → Option Nat
  | [] => none
  | d :: rest =>
      let suffix := d % 2 ^ 32
      let cursorId := containerPrefix * 2 ^ 32 + suffix
      if suffix ≠ 0 ∧ lookupA cursorId entryMap = none then some cursorId
      else pickFreshCursorId entryMap containerPrefix rest

/-- Modelled from the spec: prefix allocation — "Each namespace's first cursor
picks a new 32-bit prefix by drawing random values until one is unused in the
prefix-to-namespace map" (spec 4.4). -/
def pickFreshContainerPrefix (prefixMap : List (Nat × String)) :
    List Nat → Option Nat
  | [] => none
  | d :: rest =>
      let p := d % 2 ^ 32
      if lookupA p prefixMap = none then some p
      else pickFreshContainerPrefix prefixMap rest

/-- Modelled from the spec: `ClusterCursorManager::registerCursor` (spec 4.1):
refuses with *shutting-down* if `shutdown` has begun (killing the passed-in
cursor, per "On an error return, kills 'cursor'"); otherwise finds or creates
the namespace container, allocates a fresh id (new prefix for a new namespace;
fresh non-zero suffix), records last-active = now and stores the new idle
entry.  Deadline stashing on the cursor is not modelled (not observable here).
Result: the status with the new id, the updated registry, and the cursor the
manager killed (on the error path). -/
def registerCursor (m : ClusterCursorManager) (cursor : ClusterClientCursor)
    (nss : String) (cursorType : CursorType) (cursorLifetime : CursorLifetime)
    (authenticatedUsers : List Nat) (clientUUID : Nat) (opKey : Option Nat)
    (now : Nat) (prefixDraws suffixDraws : List Nat) :
    Option (Except ErrorCode Nat × ClusterCursorManager ×
      Option ClusterClientCursor) :=
  if m.inShutdown then
    some (.error .shutdownInProgress, m, some { cursor with killed := true })
  else
    match lookupA nss m.namespaceToContainerMap with
    | some container =>
        match pickFreshCursorId container.entryMap container.containerPrefix
            suffixDraws with
        | none => none
        | some cursorId =>
            let entry := mkCursorEntry cursor cursorType cursorLifetime now
              authenticatedUsers clientUUID opKey
            some (.ok cursorId,
              { m with
                namespaceToContainerMap :=
                  updateA nss (fun c => { c with entryMap := (cursorId, entry) :: c.entryMap })
                    m.namespaceToContainerMap },
              none)
    | none =>
        match pickFreshContainerPrefix m.cursorIdPrefixToNamespaceMap
            prefixDraws with
        | none => none
        | some containerPrefix =>
            match pickFreshCursorId [] containerPrefix suffixDraws with
            | none => none
            | some cursorId =>
                let entry := mkCursorEntry cursor cursorType cursorLifetime now
                  authenticatedUsers clientUUID opKey
                some (.ok cursorId,
                  { m with
                    cursorIdPrefixToNamespaceMap :=
                      (containerPrefix, nss) :: m.cursorIdPrefixToNamespaceMap,
                    namespaceToContainerMap :=
                      (nss, ⟨containerPrefix, [(cursorId, entry)]⟩)
                        :: m.namespaceToContainerMap },
                  none)

/-- `ClusterCursorManager::PinnedCursor` data members: the owned cursor (if
any), the namespace and the cursor id.  The back-pointer to the manager is
implicit: handle operations take the registry state as an argument. -/
structure PinnedCursor where
  cursor : Option ClusterClientCursor := none
  nss : String := ""
  cursorId : Nat := 0
  deriving DecidableEq, Repr

/-- Modelled from the spec: `ClusterCursorManager::checkOutCursor` (spec 4.1),
error conditions in the spec's priority order: 1. entry absent → not-found;
2. entry currently pinned → in-use; 3. entry kill-pending → not-found;
4. auth checker's non-OK status; 5. session mismatch when `checkSessionAuth`.
On success the entry's cursor moves into the returned pinned handle, the
caller's operation context is recorded and last-active is set to `now`.
The auth predicate is abstracted as `authChecker : users → Option ErrorCode`
(`none` = OK); the session check compares the caller's lsid with the
entry's.  `none` models an `invariant` failure (idle entry with no cursor). -/
def checkOutCursor (m : ClusterCursorManager) (nss : String)
    (cursorId : Nat) (opCtx : OperationContext)
    (authChecker : List Nat → Option ErrorCode) (checkSessionAuth : Bool)
    (now : Nat) :
    Option (Except ErrorCode (PinnedCursor × ClusterCursorManager)) :=
  match getEntry m nss cursorId with
  | none => some (.error .cursorNotFound)
  | some entry =>
      if entry.operationUsingCursor.isSome then some (.error .cursorInUse)
      else if entry.isKillPending then some (.error .cursorNotFound)
      else
        match authChecker entry.authenticatedUsers with
        | some code => some (.error code)
        | none =>
            if checkSessionAuth = true ∧ opCtx.lsid ≠ entry.lsid then
              some (.error .sessionMismatch)
            else
              match entry.releaseCursor opCtx with
              | none => none
              | some (c, entry1) =>
                  some (.ok
                    ({ cursor := some c, nss := nss, cursorId := cursorId },
                     setEntry m nss cursorId { entry1 with lastActive := now }))

/-- Modelled from the spec: `ClusterCursorManager::checkInCursor` (spec 4.1):
reacquires the cursor, clears `current-operation`, updates last-active; if the
state is `exhausted` or the entry was kill-pending (observed before the
operation pointer is cleared — the flag is derived from that operation), the
entry is erased and the cursor destroyed; otherwise the cursor is kept.
Result: the registry and the cursor destroyed, if any.  `none` models an
`invariant` failure (no such entry / double check-in). -/
def checkInCursor (m : ClusterCursorManager) (cursor : ClusterClientCursor)
    (nss : String) (cursorId : Nat) (cursorState : CursorState)
    (now : Nat) :
    Option (ClusterCursorManager × Option ClusterClientCursor) :=
  match getEntry m nss cursorId with
  | none => none
  | some entry =>
      let killPending := entry.isKillPending
      match entry.returnCursor cursor with
      | none => none
      | some entry1 =>
          if cursorState = .exhausted ∨ killPending = true then
            some (eraseEntryAndMaybeContainer m nss cursorId,
              some { cursor with killed := true })
          else
            some (setEntry m nss cursorId { entry1 with lastActive := now }, none)

/-- `ClusterCursorManager::killOperationUsingCursor` (declaration in the
header: "Flags the OperationContext that's using the given cursor as
interrupted"): sets the kill-pending flag of the operation recorded in the
entry; `none` when no operation is using the cursor. -/
def killOperationUsingCursor (e : CursorEntry) : Option CursorEntry :=
  e.operationUsingCursor.map
    (fun op => { e with operationUsingCursor := some { op with killPending := true } })

/-- Modelled from the spec: `ClusterCursorManager::killCursor` (spec 4.1):
not-found if no such entry exists (including entries already kill-pending,
which appear gone to callers); a pinned entry is marked kill-pending by
interrupting its operation, destruction deferred to check-in; an idle entry is
erased and its cursor destroyed.  Result: the status, the registry, and the
cursor destroyed, if any. -/
def killCursor (m : ClusterCursorManager) (nss : String) (cursorId : Nat) :
    Option (Except ErrorCode Unit × ClusterCursorManager ×
      Option ClusterClientCursor) :=
  match getEntry m nss cursorId with
  | none => some (.error .cursorNotFound, m, none)
  | some entry =>
      if entry.isKillPending then some (.error .cursorNotFound, m, none)
      else
        match killOperationUsingCursor entry with
        | some entry1 => some (.ok (), setEntry m nss cursorId entry1, none)
        | none =>
            match entry.cursor with
            | some c =>
                some (.ok (), eraseEntryAndMaybeContainer m nss cursorId,
                  some { c with killed := true })
            | none => none

/-- Modelled from the spec: one entry of the `killCursorsSatisfying` scan over
a container: a matched pinned entry is kept with its operation interrupted, a
matched idle entry is removed and its cursor destroyed, a non-matching entry
is kept.  Returns the surviving entries, the number killed and the destroyed
cursors.  `none` models an `invariant` failure (matched idle entry holding no
cursor). -/
def passEntries (pred : Nat → CursorEntry → Bool) :
    List (Nat × CursorEntry) →
    Option (List (Nat × CursorEntry) × Nat × List ClusterClientCursor)
  | [] => some ([], 0, [])
  | (cursorId, e) :: rest =>
      if pred cursorId e then
        match e.operationUsingCursor with
        | some op =>
            match passEntries pred rest with
            | none => none
            | some (rest', n, killed) =>
                some ((cursorId,
                  { e with operationUsingCursor := some { op with killPending := true } })
                    :: rest', n + 1, killed)
        | none =>
            match e.cursor with
            | some c =>
                match passEntries pred rest with
                | none => none
                | some (rest', n, killed) =>
                    some (rest', n + 1, { c with killed := true } :: killed)
            | none => none
      else
        match passEntries pred rest with
        | none => none
        | some (rest', n, killed) => some ((cursorId, e) :: rest', n, killed)

/-- Modelled from the spec: the `killCursorsSatisfying` scan over all
containers; a container whose entries are all removed is dropped, and its
prefix is collected for removal from the prefix map. -/
def passContainers (pred : Nat → CursorEntry → Bool) :
    List (String × CursorEntryContainer) →
    Option (List (String × CursorEntryContainer) × List Nat × Nat ×
      List ClusterClientCursor)
  | [] => some ([], [], 0, [])
  | (nss, container) :: rest =>
      match passEntries pred container.entryMap with
      | none => none
      | some (entryMap, n1, killed1) =>
          match passContainers pred rest with
          | none => none
          | some (rest', erased, n2, killed2) =>
              if entryMap.isEmpty then
                some (rest', container.containerPrefix :: erased, n1 + n2,
                  killed1 ++ killed2)
              else
                some ((nss, { container with entryMap := entryMap }) :: rest',
                  erased, n1 + n2, killed1 ++ killed2)

/-- Erase every key of `ks` from the prefix map. -/
def eraseAllA (ks : List Nat) (l : List (Nat × String)) : List (Nat × String) :=
  ks.foldl (fun acc k => eraseA k acc) l

/-- Modelled from the spec: `ClusterCursorManager::killCursorsSatisfying`
(spec 4.1): a single pass over all entries; for each match either
detach-and-destroy (idle) or mark-and-interrupt (pinned); returns the number
of entries affected. -/
def killCursorsSatisfying (m : ClusterCursorManager)
    (pred : Nat → CursorEntry → Bool) :
    Option (Nat × ClusterCursorManager × List ClusterClientCursor) :=
  match passContainers pred m.namespaceToContainerMap with
  | none => none
  | some (nsMap, erased, n, killed) =>
      some (n,
        { m with
          namespaceToContainerMap := nsMap,
          cursorIdPrefixToNamespaceMap :=
            eraseAllA erased m.cursorIdPrefixToNamespaceMap },
        killed)

/-- The inactivity predicate of `killMortalCursorsInactiveSince` (spec 4.1):
mortal, last-active at or before the cutoff, and not currently pinned. -/
def mortalInactive (cutoff : Nat) (e : CursorEntry) : Bool :=
  decide (e.cursorLifetime = CursorLifetime.mortal) &&
    decide (e.lastActive ≤ cutoff) && e.operationUsingCursor.isNone

/-- Modelled from the spec: `ClusterCursorManager::killMortalCursorsInactiveSince`
= `killCursorsSatisfying` with the predicate "mortal ∧ last-active ≤ cutoff ∧
not currently pinned". -/
def killMortalCursorsInactiveSince (m : ClusterCursorManager) (cutoff : Nat) :
    Option (Nat × ClusterCursorManager × List ClusterClientCursor) :=
  killCursorsSatisfying m (fun _ e => mortalInactive cutoff e)

/-- Modelled from the spec: `ClusterCursorManager::killAllCursors` =
`killCursorsSatisfying` with the always-true predicate. -/
def killAllCursors (m : ClusterCursorManager) :
    Option (Nat × ClusterCursorManager × List ClusterClientCursor) :=
  killCursorsSatisfying m (fun _ _ => true)

/-- Modelled from the spec: `ClusterCursorManager::shutdown` (spec 4.1): sets
the shutting-down flag, then invokes the detach-and-kill protocol on every
remaining entry (the cooperative wait for pinned cursors to come back is the
workers' subsequent `checkInCursor` steps). -/
def shutdown (m : ClusterCursorManager) :
    Option (Nat × ClusterCursorManager × List ClusterClientCursor) :=
  killCursorsSatisfying { m with inShutdown := true } (fun _ _ => true)

/-- `ClusterCursorManager::incrementCursorsTimedOut` (body in the header). -/
def incrementCursorsTimedOut (m : ClusterCursorManager) (inc : Nat) :
    ClusterCursorManager :=
  { m with cursorsTimedOut := m.cursorsTimedOut + inc }

/-- Modelled from the spec: `ClusterCursorManager::getNamespaceForCursorId`
(header comment: "Returns the namespace associated with the given cursor id,
by examining the 'namespace prefix' portion of the cursor id.  A cursor with
the given cursor id need not actually exist."). -/
def getNamespaceForCursorId (m : ClusterCursorManager) (cursorId : Nat) :
    Option String :=
  lookupA (idPrefix cursorId) m.cursorIdPrefixToNamespaceMap

/-!
### Pinned handle operations
-/

/-- Modelled from the spec: `PinnedCursor::returnCursor(state)` — checks the
owned cursor back in (asserts a cursor is owned) and resets the handle to the
null state.  Returns the reset handle, the registry and the cursor the manager
destroyed, if any. -/
def PinnedCursor.returnCursor (p : PinnedCursor) (cursorState : CursorState)
    (m : ClusterCursorManager) (now : Nat) :
    Option (PinnedCursor × ClusterCursorManager × Option ClusterClientCursor) :=
  match p.cursor with
  | none => none
  | some c =>
      match checkInCursor m c p.nss p.cursorId cursorState now with
      | none => none
      | some (m1, destroyed) => some ({}, m1, destroyed)

/-- Modelled from the spec: `PinnedCursor::returnAndKillCursor` — "kill-pending
is set and the cursor is checked back in": the owned cursor is marked to be
killed and checked in on the destroying path, so the manager erases the entry
and destroys the cursor. -/
def PinnedCursor.returnAndKillCursor (p : PinnedCursor)
    (m : ClusterCursorManager) (now : Nat) :
    Option (PinnedCursor × ClusterCursorManager × Option ClusterClientCursor) :=
  match p.cursor with
  | none => none
  | some c =>
      match checkInCursor m { c with killed := true } p.nss p.cursorId
          .exhausted now with
      | none => none
      | some (m1, destroyed) => some ({}, m1, destroyed)

/-- Modelled from the spec: the `PinnedCursor` destructor (and the overwritten
target of a move assignment): "If a cursor is not owned, performs no action.
Otherwise, informs the manager that the cursor should be killed, and transfers
ownership of the cursor back to the manager."  The boolean reports whether the
return-and-kill path ran. -/
def PinnedCursor.drop (p : PinnedCursor) (m : ClusterCursorManager)
    (now : Nat) :
    Option (PinnedCursor × ClusterCursorManager × Option ClusterClientCursor ×
      Bool) :=
  match p.cursor with
  | none => some (p, m, none, false)
  | some _ =>
      match p.returnAndKillCursor m now with
      | none => none
      | some (p1, m1, destroyed) => some (p1, m1, destroyed, true)

/-!
### Reachability

One constructor per state-changing operation; read-only queries do not alter
the registry.  A `none` result (an `invariant` failure, or an id-allocation
loop that never finds a free id) produces no successor state.
-/

/-- One public state-changing operation of the manager. -/
inductive Step : ClusterCursorManager → ClusterCursorManager → Prop where
  | registerStep {m cursor nss cursorType cursorLifetime users uuid opKey now
      prefixDraws suffixDraws res m' k}
      (h : registerCursor m cursor nss cursorType cursorLifetime users uuid
        opKey now prefixDraws suffixDraws = some (res, m', k)) : Step m m'
  | checkOutStep {m nss cursorId opCtx authChecker checkSessionAuth now p m'}
      (h : checkOutCursor m nss cursorId opCtx authChecker checkSessionAuth now
        = some (.ok (p, m'))) : Step m m'
  | checkInStep {m cursor nss cursorId cursorState now m' destroyed}
      (h : checkInCursor m cursor nss cursorId cursorState now
        = some (m', destroyed)) : Step m m'
  | killCursorStep {m nss cursorId res m' destroyed}
      (h : killCursor m nss cursorId = some (res, m', destroyed)) : Step m m'
  | killSatisfyingStep {m pred n m' destroyed}
      (h : killCursorsSatisfying m pred = some (n, m', destroyed)) : Step m m'
  | killMortalStep {m cutoff n m' destroyed}
      (h : killMortalCursorsInactiveSince m cutoff = some (n, m', destroyed)) :
      Step m m'
  | killAllStep {m n m' destroyed}
      (h : killAllCursors m = some (n, m', destroyed)) : Step m m'
  | shutdownStep {m n m' destroyed}
      (h : shutdown m = some (n, m', destroyed)) : Step m m'
  | incrementTimedOutStep {m inc} : Step m (incrementCursorsTimedOut m inc)

/-- States reachable from the freshly constructed manager. -/
def Reachable (m : ClusterCursorManager) : Prop :=
  Relation.ReflTransGen Step initialManager m

/-!
### The registry invariant
-/

/-- Every entry of the registry satisfies the exclusivity invariant. -/
def AllWf (m : ClusterCursorManager) : Prop :=
  ∀ p ∈ m.namespaceToContainerMap, ∀ q ∈ p.2.entryMap, wfEntry q.2

/-- The structural invariant of the registry (spec 3 "Invariants", spec 8
"Quantified invariants"): the two maps have no duplicate keys and are mutually
consistent, container prefixes are distinct 32-bit values, containers are
nonempty, and within each container the entry keys are distinct, carry the
container's prefix in their upper 32 bits, are non-zero 64-bit values, and the
entries satisfy the exclusivity invariant. -/
structure Inv (m : ClusterCursorManager) : Prop where
  nsKeysNodup : (m.namespaceToContainerMap.map Prod.fst).Nodup
  prefixKeysNodup : (m.cursorIdPrefixToNamespaceMap.map Prod.fst).Nodup
  prefixesNodup :
    (m.namespaceToContainerMap.map (fun p => p.2.containerPrefix)).Nodup
  prefixBound : ∀ p ∈ m.namespaceToContainerMap, p.2.containerPrefix < 2 ^ 32
  containerPrefixInMap : ∀ p ∈ m.namespaceToContainerMap,
    lookupA p.2.containerPrefix m.cursorIdPrefixToNamespaceMap = some p.1
  prefixMapBacked : ∀ q ∈ m.cursorIdPrefixToNamespaceMap,
    ∃ container, lookupA q.2 m.namespaceToContainerMap = some container ∧
      container.containerPrefix = q.1
  containersNonempty : ∀ p ∈ m.namespaceToContainerMap, p.2.entryMap ≠ []
  entryKeysNodup : ∀ p ∈ m.namespaceToContainerMap,
    (p.2.entryMap.map Prod.fst).Nodup
  entryIds : ∀ p ∈ m.namespaceToContainerMap, ∀ q ∈ p.2.entryMap,
    idPrefix q.1 = p.2.containerPrefix ∧ q.1 ≠ 0 ∧ q.1 < 2 ^ 64
  entriesWf : AllWf m

theorem inv_initial : Inv initialManager := by
  constructor <;> simp [initialManager, AllWf]

theorem mem_eraseA_ne_key {α β : Type} [DecidableEq α] {k : α} {q : α × β}
    {l : List (α × β)} (hnd : (l.map Prod.fst).Nodup) (h : q ∈ eraseA k l) :
    q.1 ≠ k := by
  induction l with
  | nil => simp [eraseA] at h
  | cons p rest ih =>
      obtain ⟨ka, va⟩ := p
      simp only [List.map_cons, List.nodup_cons] at hnd
      by_cases hk : ka = k
      · subst hk
        simp only [eraseA, if_pos rfl] at h
        intro hq
        exact hnd.1 (List.mem_map.mpr ⟨q, h, hq⟩)
      · simp only [eraseA, if_neg hk] at h
        rcases List.mem_cons.mp h with heq | hmem
        · subst heq; exact hk
        · exact ih hnd.2 hmem

theorem updateA_ne_nil {α β : Type} [DecidableEq α] {k : α} {f : β → β}
    {l : List (α × β)} (h : l ≠ []) : updateA k f l ≠ [] := by
  cases l with
  | nil => simp at h
  | cons p rest =>
      obtain ⟨ka, va⟩ := p
      by_cases hk : ka = k <;> simp [updateA, hk]

theorem map_updateA_invariant {α β γ : Type} [DecidableEq α] (k : α)
    (f : β → β) (g : α × β → γ) (hg : ∀ v, g (k, f v) = g (k, v))
    (l : List (α × β)) : (updateA k f l).map g = l.map g := by
  induction l with
  | nil => simp [updateA]
  | cons p rest ih =>
      obtain ⟨ka, va⟩ := p
      by_cases hk : ka = k
      · subst hk; simp [updateA, hg]
      · simp [updateA, hk, ih]

theorem inv_setEntry {m : ClusterCursorManager} {nss : String}
    {cursorId : Nat} {e' : CursorEntry} (hInv : Inv m)
    (hwf : wfEntry e') : Inv (setEntry m nss cursorId e') := by
  set f : CursorEntryContainer → CursorEntryContainer :=
    fun c => { c with entryMap := updateA cursorId (fun _ => e') c.entryMap }
    with hf
  have hpfx : ∀ c, (f c).containerPrefix = c.containerPrefix := fun c => rfl
  have hmemf : ∀ p ∈ (setEntry m nss cursorId e').namespaceToContainerMap,
      ∃ c, (p.1, c) ∈ m.namespaceToContainerMap ∧ (p.2 = c ∨ p.2 = f c) := by
    intro p hp
    rcases mem_updateA hp with hmem | ⟨c, hc, hpq⟩
    · exact ⟨p.2, hmem, Or.inl rfl⟩
    · subst hpq
      exact ⟨c, hc, Or.inr rfl⟩
  have hentry : ∀ (c : CursorEntryContainer), ∀ q ∈ (f c).entryMap,
      ∃ e, (q.1, e) ∈ c.entryMap ∧ (q.2 = e ∨ q.2 = e') := by
    intro c q hq
    rcases mem_updateA hq with hmem | ⟨v, hv, hqe⟩
    · exact ⟨q.2, hmem, Or.inl rfl⟩
    · subst hqe
      exact ⟨v, hv, Or.inr rfl⟩
  constructor
  · simpa [setEntry] using hInv.nsKeysNodup
  · exact hInv.prefixKeysNodup
  · have : ((setEntry m nss cursorId e').namespaceToContainerMap.map
        (fun p => p.2.containerPrefix))
        = m.namespaceToContainerMap.map (fun p => p.2.containerPrefix) := by
      simp only [setEntry]
      refine map_updateA_invariant _ _ _ ?_ _
      intro v
      rfl
    rw [this]; exact hInv.prefixesNodup
  · intro p hp
    obtain ⟨c, hc, hcase⟩ := hmemf p hp
    rcases hcase with h2 | h2 <;>
      simpa [h2, hpfx] using hInv.prefixBound (p.1, c) hc
  · intro p hp
    obtain ⟨c, hc, hcase⟩ := hmemf p hp
    rcases hcase with h2 | h2 <;>
      simpa [h2, hpfx] using hInv.containerPrefixInMap (p.1, c) hc
  · intro q hq
    obtain ⟨c, hlook, hcp⟩ := hInv.prefixMapBacked q hq
    by_cases hq2 : q.2 = nss
    · refine ⟨f c, ?_, by simp [hpfx, hcp]⟩
      simp only [setEntry, hq2] at hlook ⊢
      rw [lookupA_updateA_self, hlook]
      rfl
    · refine ⟨c, ?_, hcp⟩
      simp only [setEntry]
      rw [lookupA_updateA_ne hq2]
      exact hlook
  · intro p hp
    obtain ⟨c, hc, hcase⟩ := hmemf p hp
    have hne := hInv.containersNonempty (p.1, c) hc
    rcases hcase with h2 | h2
    · simpa [h2] using hne
    · rw [h2]
      exact updateA_ne_nil hne
  · intro p hp
    obtain ⟨c, hc, hcase⟩ := hmemf p hp
    have hnd := hInv.entryKeysNodup (p.1, c) hc
    rcases hcase with h2 | h2
    · simpa [h2] using hnd
    · rw [h2]
      simpa [hf, map_fst_updateA] using hnd
  · intro p hp q hq
    obtain ⟨c, hc, hcase⟩ := hmemf p hp
    rcases hcase with h2 | h2
    · have := hInv.entryIds (p.1, c) hc q (h2 ▸ hq)
      simpa [h2, hpfx] using this
    · rw [h2] at hq
      obtain ⟨e, he, _⟩ := hentry c q hq
      have := hInv.entryIds (p.1, c) hc (q.1, e) he
      simpa [h2, hpfx] using this
  · intro p hp q hq
    obtain ⟨c, hc, hcase⟩ := hmemf p hp
    rcases hcase with h2 | h2
    · exact hInv.entriesWf (p.1, c) hc q (h2 ▸ hq)
    · rw [h2] at hq
      obtain ⟨e, he, hcase2⟩ := hentry c q hq
      rcases hcase2 with h3 | h3
      · have := hInv.entriesWf (p.1, c) hc (q.1, e) he
        simpa [h3] using this
      · rw [h3]; exact hwf

theorem key_mem_of_lookupA_isSome {α β : Type} [DecidableEq α] {k : α}
    {l : List (α × β)} (h : (lookupA k l).isSome) : k ∈ l.map Prod.fst := by
  by_contra hmem
  rw [← lookupA_eq_none_iff (k := k) (l := l)] at hmem
  rw [hmem] at h
  simp at h

theorem inv_eraseEntry {m : ClusterCursorManager} {nss : String}
    {cursorId : Nat} (hInv : Inv m) :
    Inv (eraseEntryAndMaybeContainer m nss cursorId) := by
  unfold eraseEntryAndMaybeContainer
  cases hlook : lookupA nss m.namespaceToContainerMap with
  | none => exact hInv
  | some container =>
      have hcmem : (nss, container) ∈ m.namespaceToContainerMap :=
        lookupA_mem hlook
      dsimp only
      by_cases hempty : (eraseA cursorId container.entryMap).isEmpty
      · rw [if_pos hempty]
        -- the container empties: both map entries are removed together
        constructor
        · exact hInv.nsKeysNodup.sublist (map_fst_eraseA_sublist _ _)
        · exact hInv.prefixKeysNodup.sublist (map_fst_eraseA_sublist _ _)
        · exact hInv.prefixesNodup.sublist
            ((eraseA_sublist nss m.namespaceToContainerMap).map _)
        · intro p hp
          exact hInv.prefixBound p (mem_of_mem_eraseA hp)
        · intro p hp
          have hpmem := mem_of_mem_eraseA hp
          have hkey : p.1 ≠ nss := mem_eraseA_ne_key hInv.nsKeysNodup hp
          have hpne : p.2.containerPrefix ≠ container.containerPrefix := by
            intro hceq
            have := List.inj_on_of_nodup_map hInv.prefixesNodup
              hpmem hcmem hceq
            exact hkey (congrArg Prod.fst this)
          rw [lookupA_eraseA_ne hpne]
          exact hInv.containerPrefixInMap p hpmem
        · intro q hq
          have hqmem := mem_of_mem_eraseA hq
          have hqkey : q.1 ≠ container.containerPrefix :=
            mem_eraseA_ne_key hInv.prefixKeysNodup hq
          obtain ⟨c2, hc2, hc2p⟩ := hInv.prefixMapBacked q hqmem
          have hq2 : q.2 ≠ nss := by
            intro h2
            rw [h2, hlook] at hc2
            cases hc2
            exact hqkey hc2p.symm
          refine ⟨c2, ?_, hc2p⟩
          rw [lookupA_eraseA_ne hq2]
          exact hc2
        · intro p hp
          exact hInv.containersNonempty p (mem_of_mem_eraseA hp)
        · intro p hp
          exact hInv.entryKeysNodup p (mem_of_mem_eraseA hp)
        · intro p hp q hq
          exact hInv.entryIds p (mem_of_mem_eraseA hp) q hq
        · intro p hp q hq
          exact hInv.entriesWf p (mem_of_mem_eraseA hp) q hq
      · rw [if_neg hempty]
        -- entries remain: only the container's entry map shrinks
        set f : CursorEntryContainer → CursorEntryContainer :=
          fun c => { c with entryMap := eraseA cursorId c.entryMap } with hf
        have hmemf : ∀ p ∈ updateA nss f m.namespaceToContainerMap,
            ∃ c, (p.1, c) ∈ m.namespaceToContainerMap ∧
              (p.2 = c ∨ (p.1 = nss ∧ p.2 = f c)) := by
          intro p hp
          rcases mem_updateA hp with hmem | ⟨c, hc, hpq⟩
          · exact ⟨p.2, hmem, Or.inl rfl⟩
          · subst hpq
            exact ⟨c, hc, Or.inr ⟨rfl, rfl⟩⟩
        constructor
        · simpa using hInv.nsKeysNodup
        · exact hInv.prefixKeysNodup
        · have : (updateA nss f m.namespaceToContainerMap).map
              (fun p => p.2.containerPrefix)
              = m.namespaceToContainerMap.map (fun p => p.2.containerPrefix) := by
            refine map_updateA_invariant _ _ _ ?_ _
            intro v
            rfl
          rw [this]; exact hInv.prefixesNodup
        · intro p hp
          obtain ⟨c, hc, hcase⟩ := hmemf p hp
          rcases hcase with h2 | ⟨hn, h2⟩ <;>
            simpa [h2] using hInv.prefixBound (p.1, c) hc
        · intro p hp
          obtain ⟨c, hc, hcase⟩ := hmemf p hp
          rcases hcase with h2 | ⟨hn, h2⟩ <;>
            simpa [h2] using hInv.containerPrefixInMap (p.1, c) hc
        · intro q hq
          obtain ⟨c, hlook2, hcp⟩ := hInv.prefixMapBacked q hq
          by_cases hq2 : q.2 = nss
          · refine ⟨f c, ?_, by simp [hcp]⟩
            simp only [hq2] at hlook2 ⊢
            rw [lookupA_updateA_self, hlook2]
            rfl
          · refine ⟨c, ?_, hcp⟩
            rw [lookupA_updateA_ne hq2]
            exact hlook2
        · intro p hp
          obtain ⟨c, hc, hcase⟩ := hmemf p hp
          rcases hcase with h2 | ⟨hn, h2⟩
          · simpa [h2] using hInv.containersNonempty (p.1, c) hc
          · -- the branch guard says the erased map is nonempty; with distinct
            -- keys the stored container is the looked-up one
            have hceq : c = container := by
              have hl := mem_lookupA hInv.nsKeysNodup hc
              rw [hn, hlook] at hl
              cases hl
              rfl
            rw [h2, hf, hceq]
            intro hnil
            rw [List.isEmpty_iff] at hempty
            exact hempty hnil
        · intro p hp
          obtain ⟨c, hc, hcase⟩ := hmemf p hp
          have hnd := hInv.entryKeysNodup (p.1, c) hc
          rcases hcase with h2 | ⟨hn, h2⟩
          · simpa [h2] using hnd
          · rw [h2]
            exact hnd.sublist (map_fst_eraseA_sublist _ _)
        · intro p hp q hq
          obtain ⟨c, hc, hcase⟩ := hmemf p hp
          rcases hcase with h2 | ⟨hn, h2⟩
          · have := hInv.entryIds (p.1, c) hc q (h2 ▸ hq)
            simpa [h2] using this
          · rw [h2] at hq
            have := hInv.entryIds (p.1, c) hc q (mem_of_mem_eraseA hq)
            simpa [h2] using this
        · intro p hp q hq
          obtain ⟨c, hc, hcase⟩ := hmemf p hp
          rcases hcase with h2 | ⟨hn, h2⟩
          · exact hInv.entriesWf (p.1, c) hc q (h2 ▸ hq)
          · rw [h2] at hq
            exact hInv.entriesWf (p.1, c) hc q (mem_of_mem_eraseA hq)

theorem pickFreshCursorId_spec {em : List (Nat × CursorEntry)}
    {containerPrefix : Nat} {ds : List Nat} {cursorId : Nat}
    (h : pickFreshCursorId em containerPrefix ds = some cursorId) :
    ∃ s, 0 < s ∧ s < 2 ^ 32 ∧ cursorId = containerPrefix * 2 ^ 32 + s ∧
      lookupA cursorId em = none := by
  induction ds with
  | nil => simp [pickFreshCursorId] at h
  | cons d rest ih =>
      simp only [pickFreshCursorId] at h
      split at h
      · rename_i hcond
        obtain ⟨h1, h2⟩ := hcond
        cases h
        exact ⟨d % 2 ^ 32, Nat.pos_of_ne_zero h1, Nat.mod_lt _ (by norm_num),
          rfl, h2⟩
      · exact ih h

theorem pickFreshContainerPrefix_spec {pm : List (Nat × String)}
    {ds : List Nat} {containerPrefix : Nat}
    (h : pickFreshContainerPrefix pm ds = some containerPrefix) :
    containerPrefix < 2 ^ 32 ∧ lookupA containerPrefix pm = none := by
  induction ds with
  | nil => simp [pickFreshContainerPrefix] at h
  | cons d rest ih =>
      simp only [pickFreshContainerPrefix] at h
      split at h
      · rename_i hcond
        cases h
        exact ⟨by omega, hcond⟩
      · exact ih h

theorem wf_mkCursorEntry (cursor : ClusterClientCursor) (cursorType : CursorType)
    (cursorLifetime : CursorLifetime) (lastActive : Nat) (users : List Nat)
    (clientUUID : Nat) (opKey : Option Nat) :
    wfEntry (mkCursorEntry cursor cursorType cursorLifetime lastActive users
      clientUUID opKey) := by
  simp [wfEntry, mkCursorEntry]

theorem inv_register {m : ClusterCursorManager} {cursor : ClusterClientCursor}
    {nss : String} {cursorType : CursorType} {cursorLifetime : CursorLifetime}
    {users : List Nat} {uuid : Nat} {opKey : Option Nat} {now : Nat}
    {prefixDraws suffixDraws : List Nat}
    {res : Except ErrorCode Nat} {m' : ClusterCursorManager}
    {k : Option ClusterClientCursor} (hInv : Inv m)
    (h : registerCursor m cursor nss cursorType cursorLifetime users uuid opKey
      now prefixDraws suffixDraws = some (res, m', k)) : Inv m' := by
  unfold registerCursor at h
  by_cases hshut : m.inShutdown
  · rw [if_pos hshut] at h
    cases h
    exact hInv
  · rw [if_neg hshut] at h
    set entry := mkCursorEntry cursor cursorType cursorLifetime now users uuid
      opKey with hentry
    have hwfe : wfEntry entry := wf_mkCursorEntry ..
    cases hlook : lookupA nss m.namespaceToContainerMap with
    | some container =>
        rw [hlook] at h
        dsimp only at h
        cases hpick : pickFreshCursorId container.entryMap
            container.containerPrefix suffixDraws with
        | none => rw [hpick] at h; cases h
        | some cursorId =>
            rw [hpick] at h
            obtain ⟨s, hs0, hs32, hcid, hfresh⟩ := pickFreshCursorId_spec hpick
            have hcmem : (nss, container) ∈ m.namespaceToContainerMap :=
              lookupA_mem hlook
            have hpfxlt : container.containerPrefix < 2 ^ 32 :=
              hInv.prefixBound (nss, container) hcmem
            cases h
            set g : CursorEntryContainer → CursorEntryContainer :=
              fun c => { c with entryMap := (cursorId, entry) :: c.entryMap }
              with hg
            have hmemf : ∀ p ∈ updateA nss g m.namespaceToContainerMap,
                ∃ c, (p.1, c) ∈ m.namespaceToContainerMap ∧
                  (p.2 = c ∨ (p.1 = nss ∧ p.2 = g c)) := by
              intro p hp
              rcases mem_updateA hp with hmem | ⟨c, hc, hpq⟩
              · exact ⟨p.2, hmem, Or.inl rfl⟩
              · subst hpq
                exact ⟨c, hc, Or.inr ⟨rfl, rfl⟩⟩
            have hstore : ∀ c, (nss, c) ∈ m.namespaceToContainerMap →
                c = container := by
              intro c hc
              have hl := mem_lookupA hInv.nsKeysNodup hc
              rw [hlook] at hl
              cases hl
              rfl
            constructor
            · simpa using hInv.nsKeysNodup
            · exact hInv.prefixKeysNodup
            · have : (updateA nss g m.namespaceToContainerMap).map
                  (fun p => p.2.containerPrefix)
                  = m.namespaceToContainerMap.map
                    (fun p => p.2.containerPrefix) := by
                refine map_updateA_invariant _ _ _ ?_ _
                intro v
                rfl
              rw [this]; exact hInv.prefixesNodup
            · intro p hp
              obtain ⟨c, hc, hcase⟩ := hmemf p hp
              rcases hcase with h2 | ⟨hn, h2⟩ <;>
                simpa [h2] using hInv.prefixBound (p.1, c) hc
            · intro p hp
              obtain ⟨c, hc, hcase⟩ := hmemf p hp
              rcases hcase with h2 | ⟨hn, h2⟩ <;>
                simpa [h2] using hInv.containerPrefixInMap (p.1, c) hc
            · intro q hq
              obtain ⟨c2, hlook2, hcp⟩ := hInv.prefixMapBacked q hq
              by_cases hq2 : q.2 = nss
              · refine ⟨g c2, ?_, by simp [hcp]⟩
                simp only [hq2] at hlook2 ⊢
                rw [lookupA_updateA_self, hlook2]
                rfl
              · refine ⟨c2, ?_, hcp⟩
                rw [lookupA_updateA_ne hq2]
                exact hlook2
            · intro p hp
              obtain ⟨c, hc, hcase⟩ := hmemf p hp
              rcases hcase with h2 | ⟨hn, h2⟩
              · simpa [h2] using hInv.containersNonempty (p.1, c) hc
              · rw [h2]
                simp [hg]
            · intro p hp
              obtain ⟨c, hc, hcase⟩ := hmemf p hp
              have hnd := hInv.entryKeysNodup (p.1, c) hc
              rcases hcase with h2 | ⟨hn, h2⟩
              · simpa [h2] using hnd
              · rw [hn] at hc
                have hceq := hstore c hc
                subst hceq
                rw [h2]
                simp only [hg, List.map_cons, List.nodup_cons]
                refine ⟨?_, hnd⟩
                rw [← lookupA_eq_none_iff]
                exact hfresh
            · intro p hp q hq
              obtain ⟨c, hc, hcase⟩ := hmemf p hp
              rcases hcase with h2 | ⟨hn, h2⟩
              · have := hInv.entryIds (p.1, c) hc q (h2 ▸ hq)
                simpa [h2] using this
              · rw [hn] at hc
                have hceq : c = container := hstore c hc
                rw [h2, hceq] at hq
                simp only [hg] at hq
                rw [h2, hceq]
                rcases List.mem_cons.mp hq with heq | hmem
                · subst heq
                  refine ⟨?_, ?_, ?_⟩
                  · show cursorId / 2 ^ 32 = container.containerPrefix
                    omega
                  · show cursorId ≠ 0
                    omega
                  · show cursorId < 2 ^ 64
                    omega
                · have h3 := hInv.entryIds (nss, container) (hceq ▸ hc) q hmem
                  simpa [hg] using h3
            · intro p hp q hq
              obtain ⟨c, hc, hcase⟩ := hmemf p hp
              rcases hcase with h2 | ⟨hn, h2⟩
              · exact hInv.entriesWf (p.1, c) hc q (h2 ▸ hq)
              · rw [h2] at hq
                rcases List.mem_cons.mp hq with heq | hmem
                · subst heq
                  exact hwfe
                · exact hInv.entriesWf (p.1, c) hc q hmem
    | none =>
        rw [hlook] at h
        dsimp only at h
        cases hpickp : pickFreshContainerPrefix m.cursorIdPrefixToNamespaceMap
            prefixDraws with
        | none => rw [hpickp] at h; cases h
        | some containerPrefix =>
            rw [hpickp] at h
            dsimp only at h
            obtain ⟨hplt, hpfresh⟩ := pickFreshContainerPrefix_spec hpickp
            cases hpick : pickFreshCursorId [] containerPrefix suffixDraws with
            | none => rw [hpick] at h; cases h
            | some cursorId =>
                rw [hpick] at h
                obtain ⟨s, hs0, hs32, hcid, _⟩ := pickFreshCursorId_spec hpick
                cases h
                have hnssNew : nss ∉ m.namespaceToContainerMap.map Prod.fst :=
                  lookupA_eq_none_iff.mp hlook
                have hpfxNew : containerPrefix ∉
                    m.cursorIdPrefixToNamespaceMap.map Prod.fst :=
                  lookupA_eq_none_iff.mp hpfresh
                have hpfxNotUsed : containerPrefix ∉
                    m.namespaceToContainerMap.map
                      (fun p => p.2.containerPrefix) := by
                  intro hmem
                  obtain ⟨p, hp, hpe⟩ := List.mem_map.mp hmem
                  have := hInv.containerPrefixInMap p hp
                  rw [hpe] at this
                  exact hpfxNew (key_mem_of_lookupA_isSome (by simp [this]))
                constructor
                · exact List.nodup_cons.mpr ⟨hnssNew, hInv.nsKeysNodup⟩
                · exact List.nodup_cons.mpr ⟨hpfxNew, hInv.prefixKeysNodup⟩
                · exact List.nodup_cons.mpr ⟨hpfxNotUsed, hInv.prefixesNodup⟩
                · intro p hp
                  rcases List.mem_cons.mp hp with heq | hmem
                  · subst heq
                    exact hplt
                  · exact hInv.prefixBound p hmem
                · intro p hp
                  rcases List.mem_cons.mp hp with heq | hmem
                  · subst heq
                    show lookupA containerPrefix
                      ((containerPrefix, nss) :: m.cursorIdPrefixToNamespaceMap)
                      = some nss
                    simp
                  · have hne : containerPrefix ≠ p.2.containerPrefix := by
                      intro hc
                      exact hpfxNotUsed
                        (List.mem_map.mpr ⟨p, hmem, hc.symm⟩)
                    rw [lookupA_cons, if_neg hne]
                    exact hInv.containerPrefixInMap p hmem
                · intro q hq
                  rcases List.mem_cons.mp hq with heq | hmem
                  · subst heq
                    refine ⟨⟨containerPrefix, [(cursorId, entry)]⟩, ?_, rfl⟩
                    show lookupA nss
                      ((nss, (⟨containerPrefix, [(cursorId, entry)]⟩ :
                        CursorEntryContainer)) :: m.namespaceToContainerMap)
                      = _
                    simp
                  · obtain ⟨c2, hlook2, hcp⟩ := hInv.prefixMapBacked q hmem
                    have hq2 : nss ≠ q.2 := by
                      intro h2
                      rw [← h2, hlook] at hlook2
                      cases hlook2
                    refine ⟨c2, ?_, hcp⟩
                    rw [lookupA_cons, if_neg hq2]
                    exact hlook2
                · intro p hp
                  rcases List.mem_cons.mp hp with heq | hmem
                  · subst heq
                    show [(cursorId, entry)] ≠ []
                    simp
                  · exact hInv.containersNonempty p hmem
                · intro p hp
                  rcases List.mem_cons.mp hp with heq | hmem
                  · subst heq
                    show ([(cursorId, entry)].map Prod.fst).Nodup
                    simp
                  · exact hInv.entryKeysNodup p hmem
                · intro p hp q hq
                  rcases List.mem_cons.mp hp with heq | hmem
                  · subst heq
                    have hq2 : q ∈ [(cursorId, entry)] := hq
                    rcases List.mem_cons.mp hq2 with heq2 | hmem2
                    · subst heq2
                      refine ⟨?_, ?_, ?_⟩
                      · show cursorId / 2 ^ 32 = containerPrefix
                        rw [hcid, Nat.mul_comm,
                          Nat.mul_add_div (by norm_num : (0:Nat) < 2 ^ 32),
                          Nat.div_eq_of_lt hs32, Nat.add_zero]
                      · show cursorId ≠ 0
                        omega
                      · show cursorId < 2 ^ 64
                        omega
                    · cases hmem2
                  · exact hInv.entryIds p hmem q hq
                · intro p hp q hq
                  rcases List.mem_cons.mp hp with heq | hmem
                  · subst heq
                    have hq2 : q ∈ [(cursorId, entry)] := hq
                    rcases List.mem_cons.mp hq2 with heq2 | hmem2
                    · subst heq2
                      exact hwfe
                    · cases hmem2
                  · exact hInv.entriesWf p hmem q hq

/-!
### Preservation under the predicate-kill scan
-/

theorem passEntries_keys_sublist {pred : Nat → CursorEntry → Bool}
    {em em' : List (Nat × CursorEntry)} {n : Nat}
    {killed : List ClusterClientCursor}
    (h : passEntries pred em = some (em', n, killed)) :
    List.Sublist (em'.map Prod.fst) (em.map Prod.fst) := by
  induction em generalizing em' n killed with
  | nil =>
      simp only [passEntries] at h
      cases h
      simp
  | cons q rest ih =>
      obtain ⟨cursorId, e⟩ := q
      simp only [passEntries] at h
      split at h
      · split at h
        · cases hrec : passEntries pred rest with
          | none => rw [hrec] at h; cases h
          | some r =>
              obtain ⟨rest', n1, killed1⟩ := r
              rw [hrec] at h
              cases h
              exact (ih hrec).cons₂ _
        · split at h
          · cases hrec : passEntries pred rest with
            | none => rw [hrec] at h; cases h
            | some r =>
                obtain ⟨rest', n1, killed1⟩ := r
                rw [hrec] at h
                cases h
                exact (ih hrec).cons _
          · cases h
      · cases hrec : passEntries pred rest with
        | none => rw [hrec] at h; cases h
        | some r =>
            obtain ⟨rest', n1, killed1⟩ := r
            rw [hrec] at h
            cases h
            exact (ih hrec).cons₂ _

theorem passEntries_mem {pred : Nat → CursorEntry → Bool}
    {em em' : List (Nat × CursorEntry)} {n : Nat}
    {killed : List ClusterClientCursor}
    (h : passEntries pred em = some (em', n, killed)) :
    ∀ q' ∈ em', ∃ e, (q'.1, e) ∈ em ∧ q'.2.cursor = e.cursor ∧
      q'.2.operationUsingCursor.isSome = e.operationUsingCursor.isSome := by
  induction em generalizing em' n killed with
  | nil =>
      simp only [passEntries] at h
      cases h
      intro q' hq'
      simp at hq'
  | cons q rest ih =>
      obtain ⟨cursorId, e⟩ := q
      simp only [passEntries] at h
      split at h
      · split at h
        · rename_i op hop
          cases hrec : passEntries pred rest with
          | none => rw [hrec] at h; cases h
          | some r =>
              obtain ⟨rest', n1, killed1⟩ := r
              rw [hrec] at h
              cases h
              intro q' hq'
              rcases List.mem_cons.mp hq' with heq | hmem
              · subst heq
                exact ⟨e, List.mem_cons_self _ _, rfl, by simp [hop]⟩
              · obtain ⟨e2, he2, hc2, ho2⟩ := ih hrec q' hmem
                exact ⟨e2, List.mem_cons_of_mem _ he2, hc2, ho2⟩
        · split at h
          · cases hrec : passEntries pred rest with
            | none => rw [hrec] at h; cases h
            | some r =>
                obtain ⟨rest', n1, killed1⟩ := r
                rw [hrec] at h
                cases h
                intro q' hq'
                obtain ⟨e2, he2, hc2, ho2⟩ := ih hrec q' hq'
                exact ⟨e2, List.mem_cons_of_mem _ he2, hc2, ho2⟩
          · cases h
      · cases hrec : passEntries pred rest with
        | none => rw [hrec] at h; cases h
        | some r =>
            obtain ⟨rest', n1, killed1⟩ := r
            rw [hrec] at h
            cases h
            intro q' hq'
            rcases List.mem_cons.mp hq' with heq | hmem
            · subst heq
              exact ⟨e, List.mem_cons_self _ _, rfl, rfl⟩
            · obtain ⟨e2, he2, hc2, ho2⟩ := ih hrec q' hmem
              exact ⟨e2, List.mem_cons_of_mem _ he2, hc2, ho2⟩

theorem passContainers_keys_sublist {pred : Nat → CursorEntry → Bool}
    {L L' : List (String × CursorEntryContainer)} {erased : List Nat} {n : Nat}
    {killed : List ClusterClientCursor}
    (h : passContainers pred L = some (L', erased, n, killed)) :
    List.Sublist (L'.map Prod.fst) (L.map Prod.fst) := by
  induction L generalizing L' erased n killed with
  | nil =>
      simp only [passContainers] at h
      cases h
      simp
  | cons p rest ih =>
      obtain ⟨nss, container⟩ := p
      simp only [passContainers] at h
      cases hpe : passEntries pred container.entryMap with
      | none => rw [hpe] at h; cases h
      | some r1 =>
          obtain ⟨em, n1, killed1⟩ := r1
          rw [hpe] at h
          cases hrec : passContainers pred rest with
          | none => rw [hrec] at h; cases h
          | some r2 =>
              obtain ⟨rest', erased2, n2, killed2⟩ := r2
              rw [hrec] at h
              dsimp only at h
              split at h
              · cases h
                exact (ih hrec).cons _
              · cases h
                exact (ih hrec).cons₂ _

theorem passContainers_mem {pred : Nat → CursorEntry → Bool}
    {L L' : List (String × CursorEntryContainer)} {erased : List Nat} {n : Nat}
    {killed : List ClusterClientCursor}
    (h : passContainers pred L = some (L', erased, n, killed)) :
    ∀ p' ∈ L', ∃ container, (p'.1, container) ∈ L ∧
      p'.2.containerPrefix = container.containerPrefix ∧
      (∃ n1 k1, passEntries pred container.entryMap
        = some (p'.2.entryMap, n1, k1)) ∧ p'.2.entryMap ≠ [] := by
  induction L generalizing L' erased n killed with
  | nil =>
      simp only [passContainers] at h
      cases h
      intro p' hp'
      simp at hp'
  | cons p rest ih =>
      obtain ⟨nss, container⟩ := p
      simp only [passContainers] at h
      cases hpe : passEntries pred container.entryMap with
      | none => rw [hpe] at h; cases h
      | some r1 =>
          obtain ⟨em, n1, killed1⟩ := r1
          rw [hpe] at h
          cases hrec : passContainers pred rest with
          | none => rw [hrec] at h; cases h
          | some r2 =>
              obtain ⟨rest', erased2, n2, killed2⟩ := r2
              rw [hrec] at h
              dsimp only at h
              split at h
              · cases h
                intro p' hp'
                obtain ⟨c2, hc2, hcp, hpass, hne⟩ := ih hrec p' hp'
                exact ⟨c2, List.mem_cons_of_mem _ hc2, hcp, hpass, hne⟩
              · rename_i hne
                cases h
                intro p' hp'
                rcases List.mem_cons.mp hp' with heq | hmem
                · subst heq
                  refine ⟨container, List.mem_cons_self _ _, rfl,
                    ⟨n1, killed1, hpe⟩, ?_⟩
                  intro hnil
                  have hnil2 : em = [] := hnil
                  rw [hnil2] at hne
                  simp at hne
                · obtain ⟨c2, hc2, hcp, hpass, hne2⟩ := ih hrec p' hmem
                  exact ⟨c2, List.mem_cons_of_mem _ hc2, hcp, hpass, hne2⟩

theorem passContainers_prefixes_perm {pred : Nat → CursorEntry → Bool}
    {L L' : List (String × CursorEntryContainer)} {erased : List Nat} {n : Nat}
    {killed : List ClusterClientCursor}
    (h : passContainers pred L = some (L', erased, n, killed)) :
    List.Perm ((L'.map (fun p => p.2.containerPrefix)) ++ erased)
      (L.map (fun p => p.2.containerPrefix)) := by
  induction L generalizing L' erased n killed with
  | nil =>
      simp only [passContainers] at h
      cases h
      simp
  | cons p rest ih =>
      obtain ⟨nss, container⟩ := p
      simp only [passContainers] at h
      cases hpe : passEntries pred container.entryMap with
      | none => rw [hpe] at h; cases h
      | some r1 =>
          obtain ⟨em, n1, killed1⟩ := r1
          rw [hpe] at h
          cases hrec : passContainers pred rest with
          | none => rw [hrec] at h; cases h
          | some r2 =>
              obtain ⟨rest', erased2, n2, killed2⟩ := r2
              rw [hrec] at h
              dsimp only at h
              split at h
              · cases h
                exact List.Perm.trans List.perm_middle
                  (List.Perm.cons _ (ih hrec))
              · cases h
                exact List.Perm.cons _ (ih hrec)

theorem passContainers_lookup_none {pred : Nat → CursorEntry → Bool}
    {L L' : List (String × CursorEntryContainer)} {erased : List Nat} {n : Nat}
    {killed : List ClusterClientCursor}
    (h : passContainers pred L = some (L', erased, n, killed)) {nss : String}
    (hnone : lookupA nss L = none) : lookupA nss L' = none := by
  rw [lookupA_eq_none_iff] at hnone ⊢
  intro hmem
  exact hnone ((passContainers_keys_sublist h).mem hmem)

/-- What the scan does to the container registered under each namespace. -/
theorem passContainers_lookup {pred : Nat → CursorEntry → Bool}
    {L L' : List (String × CursorEntryContainer)} {erased : List Nat} {n : Nat}
    {killed : List ClusterClientCursor}
    (hnd : (L.map Prod.fst).Nodup)
    (h : passContainers pred L = some (L', erased, n, killed))
    {nss : String} {container : CursorEntryContainer}
    (hlook : lookupA nss L = some container) :
    ∃ em n1 k1, passEntries pred container.entryMap = some (em, n1, k1) ∧
      ((em = [] ∧ lookupA nss L' = none ∧ container.containerPrefix ∈ erased) ∨
       (em ≠ [] ∧ lookupA nss L'
          = some { container with entryMap := em })) := by
  induction L generalizing L' erased n killed with
  | nil => simp at hlook
  | cons p rest ih =>
      obtain ⟨nss0, c0⟩ := p
      simp only [List.map_cons, List.nodup_cons] at hnd
      simp only [passContainers] at h
      cases hpe : passEntries pred c0.entryMap with
      | none => rw [hpe] at h; cases h
      | some r1 =>
          obtain ⟨em0, n1, killed1⟩ := r1
          rw [hpe] at h
          cases hrec : passContainers pred rest with
          | none => rw [hrec] at h; cases h
          | some r2 =>
              obtain ⟨rest', erased2, n2, killed2⟩ := r2
              rw [hrec] at h
              dsimp only at h
              by_cases hkey : nss0 = nss
              · subst hkey
                rw [lookupA_cons, if_pos rfl] at hlook
                cases hlook
                split at h
                · rename_i hempty
                  cases h
                  refine ⟨em0, n1, killed1, hpe, Or.inl ⟨?_, ?_, ?_⟩⟩
                  · exact List.isEmpty_iff.mp hempty
                  · rw [lookupA_eq_none_iff]
                    intro hmem
                    exact hnd.1 ((passContainers_keys_sublist hrec).mem hmem)
                  · exact List.mem_cons_self _ _
                · rename_i hempty
                  cases h
                  refine ⟨em0, n1, killed1, hpe, Or.inr ⟨?_, ?_⟩⟩
                  · intro hnil
                    rw [hnil] at hempty
                    simp at hempty
                  · rw [lookupA_cons, if_pos rfl]
              · rw [lookupA_cons, if_neg hkey] at hlook
                split at h
                · cases h
                  obtain ⟨em, n3, k3, hpass, hcase⟩ := ih hnd.2 hrec hlook
                  refine ⟨em, n3, k3, hpass, ?_⟩
                  rcases hcase with ⟨he, hl, hm⟩ | ⟨he, hl⟩
                  · exact Or.inl ⟨he, hl, List.mem_cons_of_mem _ hm⟩
                  · exact Or.inr ⟨he, hl⟩
                · cases h
                  obtain ⟨em, n3, k3, hpass, hcase⟩ := ih hnd.2 hrec hlook
                  refine ⟨em, n3, k3, hpass, ?_⟩
                  rcases hcase with ⟨he, hl, hm⟩ | ⟨he, hl⟩
                  · exact Or.inl ⟨he, by rw [lookupA_cons, if_neg hkey]; exact hl,
                      hm⟩
                  · exact Or.inr ⟨he, by rw [lookupA_cons, if_neg hkey]; exact hl⟩

theorem mem_eraseAllA {ks : List Nat} {pm : List (Nat × String)}
    {q : Nat × String} (h : q ∈ eraseAllA ks pm) : q ∈ pm := by
  induction ks generalizing pm with
  | nil => exact h
  | cons k ks ih => exact mem_of_mem_eraseA (ih h)

theorem eraseAllA_keys_sublist (ks : List Nat) (pm : List (Nat × String)) :
    List.Sublist ((eraseAllA ks pm).map Prod.fst) (pm.map Prod.fst) := by
  induction ks generalizing pm with
  | nil => exact List.Sublist.refl _
  | cons k ks ih =>
      exact (ih (eraseA k pm)).trans (map_fst_eraseA_sublist k pm)

theorem lookupA_eraseAllA_notin {ks : List Nat} {pm : List (Nat × String)}
    {p : Nat} (hnot : p ∉ ks) :
    lookupA p (eraseAllA ks pm) = lookupA p pm := by
  induction ks generalizing pm with
  | nil => rfl
  | cons k ks ih =>
      have hp1 : p ≠ k := fun hc => hnot (hc ▸ List.mem_cons_self _ _)
      have hp2 : p ∉ ks := fun hc => hnot (List.mem_cons_of_mem _ hc)
      calc lookupA p (eraseAllA ks (eraseA k pm))
          = lookupA p (eraseA k pm) := ih hp2
        _ = lookupA p pm := lookupA_eraseA_ne hp1 pm

theorem lookupA_eraseAllA_none {ks : List Nat} {pm : List (Nat × String)}
    {p : Nat} (hnone : lookupA p pm = none) :
    lookupA p (eraseAllA ks pm) = none := by
  rw [lookupA_eq_none_iff] at hnone ⊢
  intro hmem
  exact hnone ((eraseAllA_keys_sublist ks pm).mem hmem)

theorem lookupA_eraseAllA_mem {ks : List Nat} {pm : List (Nat × String)}
    {p : Nat} (hnd : (pm.map Prod.fst).Nodup) (hp : p ∈ ks) :
    lookupA p (eraseAllA ks pm) = none := by
  induction ks generalizing pm with
  | nil => simp at hp
  | cons k ks ih =>
      rcases List.mem_cons.mp hp with heq | hmem
      · subst heq
        show lookupA p (eraseAllA ks (eraseA p pm)) = none
        exact lookupA_eraseAllA_none (lookupA_eraseA_self hnd)
      · show lookupA p (eraseAllA ks (eraseA k pm)) = none
        exact ih (hnd.sublist (map_fst_eraseA_sublist k pm)) hmem

theorem mem_eraseAllA_notin {ks : List Nat} {pm : List (Nat × String)}
    {q : Nat × String} (hnd : (pm.map Prod.fst).Nodup)
    (h : q ∈ eraseAllA ks pm) : q.1 ∉ ks := by
  intro hq1
  have hl := mem_lookupA (hnd.sublist (eraseAllA_keys_sublist ks pm)) h
  rw [lookupA_eraseAllA_mem hnd hq1] at hl
  cases hl

theorem inv_killSatisfying {m : ClusterCursorManager}
    {pred : Nat → CursorEntry → Bool} {n : Nat} {m' : ClusterCursorManager}
    {killed : List ClusterClientCursor} (hInv : Inv m)
    (h : killCursorsSatisfying m pred = some (n, m', killed)) : Inv m' := by
  unfold killCursorsSatisfying at h
  cases hpc : passContainers pred m.namespaceToContainerMap with
  | none => rw [hpc] at h; cases h
  | some r =>
      obtain ⟨L', erased, n2, killed2⟩ := r
      rw [hpc] at h
      cases h
      have hperm := passContainers_prefixes_perm hpc
      have hpermNodup :
          ((L'.map (fun p => p.2.containerPrefix)) ++ erased).Nodup :=
        hperm.nodup_iff.mpr hInv.prefixesNodup
      obtain ⟨hL'nodup, _, hdisj⟩ := List.nodup_append.mp hpermNodup
      constructor
      · exact hInv.nsKeysNodup.sublist (passContainers_keys_sublist hpc)
      · exact hInv.prefixKeysNodup.sublist (eraseAllA_keys_sublist _ _)
      · exact hL'nodup
      · intro p hp
        obtain ⟨c2, hc2, hcp, _, _⟩ := passContainers_mem hpc p hp
        rw [hcp]
        exact hInv.prefixBound (p.1, c2) hc2
      · intro p hp
        obtain ⟨c2, hc2, hcp, _, _⟩ := passContainers_mem hpc p hp
        have hnotin : p.2.containerPrefix ∉ erased :=
          hdisj (List.mem_map.mpr ⟨p, hp, rfl⟩)
        rw [lookupA_eraseAllA_notin hnotin, hcp]
        exact hInv.containerPrefixInMap (p.1, c2) hc2
      · intro q hq
        have hqpm := mem_eraseAllA hq
        have hqnot := mem_eraseAllA_notin hInv.prefixKeysNodup hq
        obtain ⟨c2, hlook2, hcp⟩ := hInv.prefixMapBacked q hqpm
        obtain ⟨em, n1, k1, hpass, hcase⟩ :=
          passContainers_lookup hInv.nsKeysNodup hpc hlook2
        rcases hcase with ⟨he, hl, hm⟩ | ⟨he, hl⟩
        · rw [hcp] at hm
          exact absurd hm hqnot
        · exact ⟨_, hl, hcp⟩
      · intro p hp
        obtain ⟨c2, hc2, hcp, _, hne⟩ := passContainers_mem hpc p hp
        exact hne
      · intro p hp
        obtain ⟨c2, hc2, hcp, ⟨n1, k1, hpass⟩, _⟩ := passContainers_mem hpc p hp
        exact (hInv.entryKeysNodup (p.1, c2) hc2).sublist
          (passEntries_keys_sublist hpass)
      · intro p hp q hq
        obtain ⟨c2, hc2, hcp, ⟨n1, k1, hpass⟩, _⟩ := passContainers_mem hpc p hp
        obtain ⟨e2, he2, _, _⟩ := passEntries_mem hpass q hq
        have := hInv.entryIds (p.1, c2) hc2 (q.1, e2) he2
        rw [hcp]
        exact this
      · intro p hp q hq
        obtain ⟨c2, hc2, hcp, ⟨n1, k1, hpass⟩, _⟩ := passContainers_mem hpc p hp
        obtain ⟨e2, he2, hcur, hop⟩ := passEntries_mem hpass q hq
        have hwf : wfEntry e2 := hInv.entriesWf (p.1, c2) hc2 (q.1, e2) he2
        unfold wfEntry at hwf ⊢
        rw [hcur]
        constructor
        · intro h1
          have h2 := hwf.mp h1
          rw [← Option.not_isSome_iff_eq_none] at h2 ⊢
          rw [hop]
          exact h2
        · intro h1
          apply hwf.mpr
          rw [← Option.not_isSome_iff_eq_none] at h1 ⊢
          rw [← hop]
          exact h1

theorem getEntry_mem {m : ClusterCursorManager} {nss : String} {cursorId : Nat}
    {e : CursorEntry} (h : getEntry m nss cursorId = some e) :
    ∃ container, lookupA nss m.namespaceToContainerMap = some container ∧
      (nss, container) ∈ m.namespaceToContainerMap ∧
      (cursorId, e) ∈ container.entryMap := by
  unfold getEntry at h
  cases hlook : lookupA nss m.namespaceToContainerMap with
  | none => rw [hlook] at h; cases h
  | some container =>
      rw [hlook] at h
      exact ⟨container, rfl, lookupA_mem hlook, lookupA_mem h⟩

theorem inv_checkOut {m : ClusterCursorManager} {nss : String} {cursorId : Nat}
    {opCtx : OperationContext} {authChecker : List Nat → Option ErrorCode}
    {checkSessionAuth : Bool} {now : Nat} {p : PinnedCursor}
    {m' : ClusterCursorManager} (hInv : Inv m)
    (h : checkOutCursor m nss cursorId opCtx authChecker checkSessionAuth now
      = some (.ok (p, m'))) : Inv m' := by
  unfold checkOutCursor at h
  cases hget : getEntry m nss cursorId with
  | none => rw [hget] at h; cases h
  | some entry =>
      rw [hget] at h
      dsimp only at h
      split at h
      · cases h
      · split at h
        · cases h
        · cases hauth : authChecker entry.authenticatedUsers with
          | some code => rw [hauth] at h; cases h
          | none =>
              rw [hauth] at h
              dsimp only at h
              split at h
              · cases h
              · cases hrel : entry.releaseCursor opCtx with
                | none => rw [hrel] at h; cases h
                | some r =>
                    obtain ⟨c, entry1⟩ := r
                    rw [hrel] at h
                    dsimp only at h
                    cases h
                    -- the stored entry has no cursor and a using operation
                    unfold CursorEntry.releaseCursor at hrel
                    split at hrel
                    · cases hrel
                      exact inv_setEntry hInv (by simp [wfEntry])
                    · cases hrel

theorem inv_checkIn {m : ClusterCursorManager} {cursor : ClusterClientCursor}
    {nss : String} {cursorId : Nat} {cursorState : CursorState} {now : Nat}
    {m' : ClusterCursorManager} {destroyed : Option ClusterClientCursor}
    (hInv : Inv m)
    (h : checkInCursor m cursor nss cursorId cursorState now
      = some (m', destroyed)) : Inv m' := by
  unfold checkInCursor at h
  cases hget : getEntry m nss cursorId with
  | none => rw [hget] at h; cases h
  | some entry =>
      rw [hget] at h
      dsimp only at h
      cases hret : entry.returnCursor cursor with
      | none => rw [hret] at h; cases h
      | some entry1 =>
          rw [hret] at h
          dsimp only at h
          split at h
          · cases h
            exact inv_eraseEntry hInv
          · cases h
            unfold CursorEntry.returnCursor at hret
            split at hret
            · cases hret
              exact inv_setEntry hInv (by simp [wfEntry])
            · cases hret

theorem inv_killCursor {m : ClusterCursorManager} {nss : String}
    {cursorId : Nat} {res : Except ErrorCode Unit} {m' : ClusterCursorManager}
    {destroyed : Option ClusterClientCursor} (hInv : Inv m)
    (h : killCursor m nss cursorId = some (res, m', destroyed)) : Inv m' := by
  unfold killCursor at h
  cases hget : getEntry m nss cursorId with
  | none => rw [hget] at h; cases h; exact hInv
  | some entry =>
      rw [hget] at h
      dsimp only at h
      split at h
      · cases h
        exact hInv
      · cases hkill : killOperationUsingCursor entry with
        | some entry1 =>
            rw [hkill] at h
            cases h
            obtain ⟨container, _, hcmem, hemem⟩ := getEntry_mem hget
            have hwf : wfEntry entry :=
              hInv.entriesWf (nss, container) hcmem (cursorId, entry) hemem
            unfold killOperationUsingCursor at hkill
            cases hop : entry.operationUsingCursor with
            | none => rw [hop] at hkill; cases hkill
            | some op =>
                rw [hop] at hkill
                cases hkill
                refine inv_setEntry hInv ?_
                unfold wfEntry at hwf ⊢
                simp only [hop] at hwf
                simpa using hwf
        | none =>
            rw [hkill] at h
            cases hcur : entry.cursor with
            | none => rw [hcur] at h; cases h
            | some c =>
                rw [hcur] at h
                cases h
                exact inv_eraseEntry hInv

theorem inv_setShutdownFlag {m : ClusterCursorManager} {b : Bool}
    (hInv : Inv m) : Inv { m with inShutdown := b } := by
  cases hInv
  constructor <;> assumption

theorem inv_increment {m : ClusterCursorManager} {inc : Nat} (hInv : Inv m) :
    Inv (incrementCursorsTimedOut m inc) := by
  cases hInv
  constructor <;> assumption

theorem inv_step {m m' : ClusterCursorManager} (h : Step m m') (hInv : Inv m) :
    Inv m' := by
  cases h with
  | registerStep h => exact inv_register hInv h
  | checkOutStep h => exact inv_checkOut hInv h
  | checkInStep h => exact inv_checkIn hInv h
  | killCursorStep h => exact inv_killCursor hInv h
  | killSatisfyingStep h => exact inv_killSatisfying hInv h
  | killMortalStep h => exact inv_killSatisfying hInv h
  | killAllStep h => exact inv_killSatisfying hInv h
  | shutdownStep h => exact inv_killSatisfying (inv_setShutdownFlag hInv) h
  | incrementTimedOutStep => exact inv_increment hInv

/-- Every reachable registry state satisfies the structural invariant. -/
theorem inv_of_reachable {m : ClusterCursorManager} (h : Reachable m) :
    Inv m := by
  induction h with
  | refl => exact inv_initial
  | tail _ hstep ih => exact inv_step hstep ih

/-!
### Derived views and concrete example states

The example states below are used to evaluate the verified operations on
concrete inputs.
-/

/-- The entries registered under a namespace (empty when the namespace has no
container). -/
def entriesFor (m : ClusterCursorManager) (nss : String) :
    List (Nat × CursorEntry) :=
  (lookupA nss m.namespaceToContainerMap).elim [] (fun c => c.entryMap)

/-- All live entries of the registry, with their ids. -/
def allEntries (m : ClusterCursorManager) : List (Nat × CursorEntry) :=
  m.namespaceToContainerMap.flatMap (fun p => p.2.entryMap)

/-- Number of entries the inactivity reaper should claim. -/
def countMortalInactive (m : ClusterCursorManager) (cutoff : Nat) : Nat :=
  (allEntries m).countP (fun q => mortalInactive cutoff q.2)

/-- An example cursor object. -/
def cursor0 : ClusterClientCursor := { payload := 7 }

/-- An example operation context (not interrupted, no session). -/
def opCtx0 : OperationContext := {}

/-- An interrupted operation context. -/
def opInterrupted : OperationContext := { killPending := true }

/-- An example cursor id with prefix 5 and suffix 1. -/
def cid5 : Nat := 5 * 2 ^ 32 + 1

/-- An idle entry holding `cursor0`. -/
def entryIdle : CursorEntry :=
  mkCursorEntry cursor0 .singleTarget .mortal 0 [] 0 none

/-- A pinned entry: cursor moved out, used by a live operation. -/
def entryPinned : CursorEntry :=
  { cursor := none, operationUsingCursor := some opCtx0 }

/-- A pinned entry whose operation has been interrupted (kill-pending). -/
def entryPinnedKill : CursorEntry :=
  { cursor := none, operationUsingCursor := some opInterrupted }

/-- A manager that has entered shutdown. -/
def mgrShutdown : ClusterCursorManager := { inShutdown := true }

/-- A registry holding one idle cursor under namespace `db.coll`. -/
def mgrIdle : ClusterCursorManager :=
  { cursorIdPrefixToNamespaceMap := [(5, "db.coll")],
    namespaceToContainerMap := [("db.coll", ⟨5, [(cid5, entryIdle)]⟩)] }

/-- A registry holding one pinned cursor (live operation). -/
def mgrPinnedLive : ClusterCursorManager :=
  { cursorIdPrefixToNamespaceMap := [(5, "db.coll")],
    namespaceToContainerMap := [("db.coll", ⟨5, [(cid5, entryPinned)]⟩)] }

/-- A registry holding one pinned cursor whose operation was interrupted. -/
def mgrPinnedKill : ClusterCursorManager :=
  { cursorIdPrefixToNamespaceMap := [(5, "db.coll")],
    namespaceToContainerMap := [("db.coll", ⟨5, [(cid5, entryPinnedKill)]⟩)] }

/-- A pinned handle owning `cursor0`, checked out of `mgrPinnedLive`. -/
def pinned0 : PinnedCursor :=
  { cursor := some cursor0, nss := "db.coll", cursorId := cid5 }

/-- 512 distinguishable log events. -/
def ex512 : List LogEvent :=
  (List.range 512).map (fun i => { type := .registerAttempt, cursorId := some i })

/-- A second example cursor id sharing the prefix of `cid5`. -/
def cid5b : Nat := 5 * 2 ^ 32 + 2

/-- A registry holding one idle mortal cursor and one pinned mortal cursor,
both with last-active 0. -/
def mgrMix : ClusterCursorManager :=
  { cursorIdPrefixToNamespaceMap := [(5, "db.coll")],
    namespaceToContainerMap :=
      [("db.coll", ⟨5, [(cid5, entryIdle), (cid5b, entryPinned)]⟩)] }

/-- `mgrPinnedLive` after `pinned0` checks its cursor back in unexhausted at
time 1. -/
def mgrReturned : ClusterCursorManager :=
  setEntry mgrPinnedLive "db.coll" cid5
    { entryPinned with
      cursor := some cursor0, operationUsingCursor := none, lastActive := 1 }

/-!
### The predicate-kill scan under a pinned-exempt predicate
-/

/-- Under a predicate that never matches pinned entries, the scan over one
container keeps exactly the non-matching entries, counts the matches, and
destroys one cursor per match. -/
theorem passEntries_filter {pred : Nat → CursorEntry → Bool}
    (hnp : ∀ cursorId e, pred cursorId e = true → e.operationUsingCursor = none)
    {em : List (Nat × CursorEntry)} (hwf : ∀ q ∈ em, wfEntry q.2) :
    ∃ killedList, passEntries pred em
      = some (em.filter (fun q => !(pred q.1 q.2)),
          em.countP (fun q => pred q.1 q.2), killedList)
      ∧ killedList.length = em.countP (fun q => pred q.1 q.2) := by
  induction em with
  | nil => exact ⟨[], rfl, rfl⟩
  | cons q rest ih =>
      obtain ⟨cursorId, e⟩ := q
      obtain ⟨kl, hpass, hlen⟩ :=
        ih (fun q hq => hwf q (List.mem_cons_of_mem _ hq))
      by_cases hp : pred cursorId e = true
      · have hop : e.operationUsingCursor = none := hnp _ _ hp
        have hwfe : wfEntry e := hwf (cursorId, e) (List.mem_cons_self _ _)
        have hwfe2 : e.cursor.isSome ↔ e.operationUsingCursor = none := hwfe
        obtain ⟨c, hc⟩ : ∃ c, e.cursor = some c := by
          rw [← Option.isSome_iff_exists]
          exact hwfe2.mpr hop
        refine ⟨{ c with killed := true } :: kl, ?_, ?_⟩
        · simp only [passEntries]
          rw [if_pos hp, hop]
          dsimp only
          rw [hc]
          dsimp only
          rw [hpass]
          dsimp only
          simp [List.filter_cons, List.countP_cons, hp]
        · simp [List.countP_cons, hp, hlen]
      · refine ⟨kl, ?_, ?_⟩
        · simp only [passEntries]
          rw [if_neg hp, hpass]
          dsimp only
          simp [List.filter_cons, List.countP_cons, hp]
        · simp [List.countP_cons, hp, hlen]

/-- The full scan under a pinned-exempt predicate: the count is the number of
matching entries across all containers, and one cursor is destroyed per
match. -/
theorem passContainers_filter {pred : Nat → CursorEntry → Bool}
    (hnp : ∀ cursorId e, pred cursorId e = true → e.operationUsingCursor = none)
    {L : List (String × CursorEntryContainer)}
    (hwf : ∀ p ∈ L, ∀ q ∈ p.2.entryMap, wfEntry q.2) :
    ∃ L' erased killedList, passContainers pred L
      = some (L', erased,
          (L.flatMap (fun p => p.2.entryMap)).countP (fun q => pred q.1 q.2),
          killedList)
      ∧ killedList.length
          = (L.flatMap (fun p => p.2.entryMap)).countP
              (fun q => pred q.1 q.2) := by
  induction L with
  | nil => exact ⟨[], [], [], rfl, rfl⟩
  | cons p rest ih =>
      obtain ⟨nss, container⟩ := p
      obtain ⟨L', erased, kl, hpassc, hlenc⟩ :=
        ih (fun p hp => hwf p (List.mem_cons_of_mem _ hp))
      obtain ⟨kl1, hpasse, hlen1⟩ := passEntries_filter hnp
        (fun q hq => hwf (nss, container) (List.mem_cons_self _ _) q hq)
      have hcount : ((nss, container) :: rest).flatMap (fun p => p.2.entryMap)
          = container.entryMap ++ rest.flatMap (fun p => p.2.entryMap) := by
        simp [List.flatMap_cons]
      by_cases hempty : (container.entryMap.filter
          (fun q => !(pred q.1 q.2))).isEmpty
      · refine ⟨L', container.containerPrefix :: erased, kl1 ++ kl, ?_, ?_⟩
        · simp only [passContainers]
          rw [hpasse, hpassc]
          dsimp only
          rw [if_pos hempty, hcount, List.countP_append]
        · rw [hcount, List.countP_append, List.length_append, hlen1, hlenc]
      · set em2 := container.entryMap.filter (fun q => !(pred q.1 q.2)) with hem2
        refine ⟨(nss, { container with entryMap := em2 }) :: L', erased,
          kl1 ++ kl, ?_, ?_⟩
        · simp only [passContainers]
          rw [hpasse, hpassc]
          dsimp only
          rw [if_neg hempty, hcount, List.countP_append]
        · rw [hcount, List.countP_append, List.length_append, hlen1, hlenc]

theorem mgrIdle_wf : ∀ p ∈ mgrIdle.namespaceToContainerMap,
    ∀ q ∈ p.2.entryMap, wfEntry q.2 := by
  decide

/-!
### The claims
-/

/-- C10: `CursorEntry::isKillPending` returns `false` for every entry whose
`_operationUsingCursor` is null; the kill-pending condition is not a flag
stored on the entry but is derived from the interruption state of the
operation currently using the cursor, so only a checked-out entry can observe
kill-pending through this accessor. -/
theorem isKillPending_derived :
    (∀ e : CursorEntry, e.operationUsingCursor = none →
      e.isKillPending = false)
    ∧ (∀ (e : CursorEntry) (op : OperationContext),
        e.operationUsingCursor = some op →
        e.isKillPending = op.killPending) := by
  constructor
  · intro e he
    unfold CursorEntry.isKillPending
    rw [he]
  · intro e op he
    unfold CursorEntry.isKillPending
    rw [he]

theorem isKillPending_derived_witness :
    entryIdle.isKillPending = false ∧ entryPinnedKill.isKillPending = true :=
  ⟨isKillPending_derived.1 entryIdle rfl,
   isKillPending_derived.2 entryPinnedKill opInterrupted rfl⟩

/-- C2: for every live entry of a reachable registry exactly one of {cursor
present, current-operation non-null} holds, and the two entry transitions
preserve this: `CursorEntry::releaseCursor`, on an entry whose cursor is
present and whose operation is null, moves the cursor out and records the
given operation context; `CursorEntry::returnCursor`, on an entry whose
cursor is absent and whose operation is non-null, stores the returned cursor
and clears the operation. -/
theorem cursorEntry_exclusive_transitions :
    (∀ m, Reachable m → AllWf m)
    ∧ (∀ (e : CursorEntry) (c : ClusterClientCursor)
        (opCtx : OperationContext),
        e.cursor = some c → e.operationUsingCursor = none →
        e.releaseCursor opCtx = some (c,
          { e with cursor := none, operationUsingCursor := some opCtx })
        ∧ wfEntry { e with
                    cursor := none, operationUsingCursor := some opCtx })
    ∧ (∀ (e : CursorEntry) (c : ClusterClientCursor)
        (op : OperationContext),
        e.cursor = none → e.operationUsingCursor = some op →
        e.returnCursor c = some
          { e with cursor := some c, operationUsingCursor := none }
        ∧ wfEntry { e with
                    cursor := some c, operationUsingCursor := none }) := by
  refine ⟨?_, ?_, ?_⟩
  · exact fun m hr => (inv_of_reachable hr).entriesWf
  · intro e c opCtx hc hop
    constructor
    · unfold CursorEntry.releaseCursor
      rw [hop, hc]
    · simp [wfEntry]
  · intro e c op hc hop
    constructor
    · unfold CursorEntry.returnCursor
      rw [hop, hc]
    · simp [wfEntry]

theorem cursorEntry_exclusive_transitions_witness :
    AllWf initialManager
    ∧ entryIdle.releaseCursor opCtx0 = some (cursor0,
        { entryIdle with
          cursor := none, operationUsingCursor := some opCtx0 })
    ∧ entryPinned.returnCursor cursor0 = some
        { entryPinned with
          cursor := some cursor0, operationUsingCursor := none } :=
  ⟨cursorEntry_exclusive_transitions.1 initialManager
      Relation.ReflTransGen.refl,
   (cursorEntry_exclusive_transitions.2.1 entryIdle cursor0 opCtx0 rfl rfl).1,
   (cursorEntry_exclusive_transitions.2.2 entryPinned cursor0 opCtx0
      rfl rfl).1⟩

/-- C1: `checkOutCursor` checks its error conditions in the spec's priority
order: an absent entry fails not-found; an entry currently pinned fails
in-use — regardless of the kill-pending state of its operation, of the auth
checker and of the session check; an entry that is present, not pinned, but
kill-pending fails not-found. -/
theorem checkOutCursor_error_priority :
    ∀ (m : ClusterCursorManager) (nss : String) (cursorId : Nat)
      (opCtx : OperationContext) (authChecker : List Nat → Option ErrorCode)
      (checkSessionAuth : Bool) (now : Nat),
      (getEntry m nss cursorId = none →
        checkOutCursor m nss cursorId opCtx authChecker checkSessionAuth now
          = some (.error .cursorNotFound))
      ∧ (∀ entry, getEntry m nss cursorId = some entry →
          entry.operationUsingCursor.isSome = true →
          checkOutCursor m nss cursorId opCtx authChecker checkSessionAuth now
            = some (.error .cursorInUse))
      ∧ (∀ entry, getEntry m nss cursorId = some entry →
          entry.operationUsingCursor = none → entry.isKillPending = true →
          checkOutCursor m nss cursorId opCtx authChecker checkSessionAuth now
            = some (.error .cursorNotFound)) := by
  intro m nss cursorId opCtx authChecker checkSessionAuth now
  refine ⟨?_, ?_, ?_⟩
  · intro hget
    unfold checkOutCursor
    rw [hget]
  · intro entry hget hpinned
    unfold checkOutCursor
    rw [hget]
    dsimp only
    rw [if_pos hpinned]
  · intro entry hget hop hkp
    unfold checkOutCursor
    rw [hget]
    dsimp only
    rw [if_neg (by rw [hop]; simp), if_pos hkp]

theorem checkOutCursor_error_priority_witness :
    checkOutCursor mgrPinnedKill "db.coll" cid5 opCtx0
      (fun _ => some .unauthorized) true 0 = some (.error .cursorInUse)
    ∧ checkOutCursor initialManager "db.coll" cid5 opCtx0 (fun _ => none)
        true 0 = some (.error .cursorNotFound) :=
  ⟨(checkOutCursor_error_priority mgrPinnedKill "db.coll" cid5 opCtx0
      (fun _ => some .unauthorized) true 0).2.1 entryPinnedKill (by decide)
      (by decide),
   (checkOutCursor_error_priority initialManager "db.coll" cid5 opCtx0
      (fun _ => none) true 0).1 (by decide)⟩

/-- C5: a `registerCursor` call made after shutdown has begun fails with the
shutting-down error and has no effect on the registry state — the returned
registry is the argument registry unchanged, so no entry, container or
prefix-map pair is added — and the passed-in cursor is killed rather than
retained. -/
theorem registerCursor_during_shutdown :
    ∀ (m : ClusterCursorManager) (cursor : ClusterClientCursor) (nss : String)
      (cursorType : CursorType) (cursorLifetime : CursorLifetime)
      (users : List Nat) (uuid : Nat) (opKey : Option Nat) (now : Nat)
      (prefixDraws suffixDraws : List Nat),
      m.inShutdown = true →
      registerCursor m cursor nss cursorType cursorLifetime users uuid opKey
        now prefixDraws suffixDraws
        = some (.error .shutdownInProgress, m,
            some { cursor with killed := true }) := by
  intro m cursor nss cursorType cursorLifetime users uuid opKey now pd sd h
  unfold registerCursor
  rw [if_pos h]

theorem registerCursor_during_shutdown_witness :
    registerCursor mgrShutdown cursor0 "db.coll" .singleTarget .mortal [] 0
      none 0 [] []
      = some (.error .shutdownInProgress, mgrShutdown,
          some { cursor0 with killed := true }) :=
  registerCursor_during_shutdown mgrShutdown cursor0 "db.coll" .singleTarget
    .mortal [] 0 none 0 [] [] rfl

/-- C3: `killCursor` returns not-found exactly when no entry exists for the
id or the existing entry is already kill-pending; otherwise it returns OK
and: a pinned entry is only marked kill-pending — its current operation is
interrupted, the entry stays registered and nothing is destroyed — while an
idle entry is erased and its cursor destroyed. -/
theorem killCursor_spec :
    ∀ (m : ClusterCursorManager) (nss : String) (cursorId : Nat),
      (getEntry m nss cursorId = none →
        killCursor m nss cursorId = some (.error .cursorNotFound, m, none))
      ∧ (∀ entry, getEntry m nss cursorId = some entry →
          entry.isKillPending = true →
          killCursor m nss cursorId = some (.error .cursorNotFound, m, none))
      ∧ (∀ entry op, getEntry m nss cursorId = some entry →
          entry.isKillPending = false →
          entry.operationUsingCursor = some op →
          killCursor m nss cursorId = some (.ok (),
            setEntry m nss cursorId
              { entry with
                operationUsingCursor := some { op with killPending := true } },
            none))
      ∧ (∀ entry c, getEntry m nss cursorId = some entry →
          entry.operationUsingCursor = none → entry.cursor = some c →
          killCursor m nss cursorId = some (.ok (),
            eraseEntryAndMaybeContainer m nss cursorId,
            some { c with killed := true }))
      ∧ (∀ m' d,
          killCursor m nss cursorId = some (.error .cursorNotFound, m', d) →
          getEntry m nss cursorId = none ∨
          ∃ entry, getEntry m nss cursorId = some entry ∧
            entry.isKillPending = true) := by
  intro m nss cursorId
  refine ⟨?_, ?_, ?_, ?_, ?_⟩
  · intro hget
    unfold killCursor
    rw [hget]
  · intro entry hget hkp
    unfold killCursor
    rw [hget]
    dsimp only
    rw [if_pos hkp]
  · intro entry op hget hkp hop
    unfold killCursor
    rw [hget]
    dsimp only
    rw [if_neg (by rw [hkp]; simp)]
    unfold killOperationUsingCursor
    rw [hop]
    rfl
  · intro entry c hget hop hc
    unfold killCursor
    rw [hget]
    dsimp only
    have hkp : entry.isKillPending = false := by
      unfold CursorEntry.isKillPending
      rw [hop]
    rw [if_neg (by rw [hkp]; simp)]
    unfold killOperationUsingCursor
    rw [hop]
    simp only [Option.map]
    rw [hc]
  · intro m' d h
    unfold killCursor at h
    cases hget : getEntry m nss cursorId with
    | none => exact Or.inl rfl
    | some entry =>
        rw [hget] at h
        dsimp only at h
        split at h
        · rename_i hkp
          exact Or.inr ⟨entry, rfl, hkp⟩
        · cases hkill : killOperationUsingCursor entry with
          | some entry1 => rw [hkill] at h; cases h
          | none =>
              rw [hkill] at h
              cases hcur : entry.cursor with
              | none => rw [hcur] at h; cases h
              | some c => rw [hcur] at h; cases h

theorem killCursor_spec_witness :
    killCursor initialManager "db.coll" cid5
      = some (.error .cursorNotFound, initialManager, none)
    ∧ killCursor mgrPinnedKill "db.coll" cid5
        = some (.error .cursorNotFound, mgrPinnedKill, none)
    ∧ killCursor mgrPinnedLive "db.coll" cid5
        = some (.ok (), setEntry mgrPinnedLive "db.coll" cid5
            { entryPinned with
              operationUsingCursor := some { opCtx0 with killPending := true } },
            none)
    ∧ killCursor mgrIdle "db.coll" cid5
        = some (.ok (), eraseEntryAndMaybeContainer mgrIdle "db.coll" cid5,
            some { cursor0 with killed := true }) :=
  ⟨(killCursor_spec initialManager "db.coll" cid5).1 (by decide),
   (killCursor_spec mgrPinnedKill "db.coll" cid5).2.1 entryPinnedKill
     (by decide) (by decide),
   (killCursor_spec mgrPinnedLive "db.coll" cid5).2.2.1 entryPinned opCtx0
     (by decide) (by decide) (by decide),
   (killCursor_spec mgrIdle "db.coll" cid5).2.2.2.1 entryIdle cursor0
     (by decide) (by decide) (by decide)⟩

theorem register_example :
    registerCursor initialManager cursor0 "db.coll" .singleTarget .mortal []
      0 none 0 [5] [1] = some (.ok cid5, mgrIdle, none) := by
  rfl

theorem reach_mgrIdle : Reachable mgrIdle :=
  Relation.ReflTransGen.single (Step.registerStep register_example)

/-- C6: at every reachable state of the registry no two live cursor entries
(across all namespaces) share the same id; every live id is a non-zero
64-bit value whose upper 32 bits equal its container's prefix; and every id
returned by a successful `registerCursor` is non-zero (the zero suffix is
retried during allocation). -/
theorem cursorIds_unique_nonzero_prefixed :
    (∀ m, Reachable m →
      ((allEntries m).map Prod.fst).Nodup
      ∧ (∀ p ∈ m.namespaceToContainerMap, ∀ q ∈ p.2.entryMap,
          q.1 ≠ 0 ∧ q.1 < 2 ^ 64 ∧ idPrefix q.1 = p.2.containerPrefix))
    ∧ (∀ (m : ClusterCursorManager) (cursor : ClusterClientCursor)
        (nss : String) (cursorType : CursorType)
        (cursorLifetime : CursorLifetime) (users : List Nat) (uuid : Nat)
        (opKey : Option Nat) (now : Nat) (pd sd : List Nat) (cursorId : Nat)
        (m' : ClusterCursorManager) (k : Option ClusterClientCursor),
        registerCursor m cursor nss cursorType cursorLifetime users uuid opKey
          now pd sd = some (.ok cursorId, m', k) → cursorId ≠ 0) := by
  constructor
  · intro m hr
    have hInv := inv_of_reachable hr
    constructor
    · have hmap : (allEntries m).map Prod.fst
          = m.namespaceToContainerMap.flatMap
              (fun p => p.2.entryMap.map Prod.fst) := by
        unfold allEntries
        rw [List.map_flatMap]
      rw [hmap, List.nodup_flatMap]
      constructor
      · intro p hp
        exact hInv.entryKeysNodup p hp
      · have hpw : m.namespaceToContainerMap.Pairwise
            (fun a b => a.2.containerPrefix ≠ b.2.containerPrefix) :=
          List.pairwise_map.mp hInv.prefixesNodup
        refine hpw.imp_of_mem ?_
        intro a b ha hb hne
        intro x hxa hxb
        obtain ⟨qa, hqa, hxqa⟩ := List.mem_map.mp hxa
        obtain ⟨qb, hqb, hxqb⟩ := List.mem_map.mp hxb
        have h1 := (hInv.entryIds a ha qa hqa).1
        have h2 := (hInv.entryIds b hb qb hqb).1
        rw [hxqa] at h1
        rw [hxqb] at h2
        exact hne (h1 ▸ h2 ▸ rfl)
    · intro p hp q hq
      obtain ⟨h1, h2, h3⟩ := hInv.entryIds p hp q hq
      exact ⟨h2, h3, h1⟩
  · intro m cursor nss cursorType cursorLifetime users uuid opKey now pd sd
      cursorId m' k h
    unfold registerCursor at h
    split at h
    · cases h
    · cases hlook : lookupA nss m.namespaceToContainerMap with
      | some container =>
          rw [hlook] at h
          dsimp only at h
          cases hpick : pickFreshCursorId container.entryMap
              container.containerPrefix sd with
          | none => rw [hpick] at h; cases h
          | some cid2 =>
              rw [hpick] at h
              cases h
              obtain ⟨s, hs0, _, hcid, _⟩ := pickFreshCursorId_spec hpick
              omega
      | none =>
          rw [hlook] at h
          dsimp only at h
          cases hpickp : pickFreshContainerPrefix
              m.cursorIdPrefixToNamespaceMap pd with
          | none => rw [hpickp] at h; cases h
          | some containerPrefix =>
              rw [hpickp] at h
              dsimp only at h
              cases hpick : pickFreshCursorId [] containerPrefix sd with
              | none => rw [hpick] at h; cases h
              | some cid2 =>
                  rw [hpick] at h
                  cases h
                  obtain ⟨s, hs0, _, hcid, _⟩ := pickFreshCursorId_spec hpick
                  omega

theorem cursorIds_unique_nonzero_prefixed_witness :
    ((allEntries mgrIdle).map Prod.fst).Nodup ∧ cid5 ≠ 0 :=
  ⟨(cursorIds_unique_nonzero_prefixed.1 mgrIdle reach_mgrIdle).1,
   cursorIds_unique_nonzero_prefixed.2 initialManager cursor0 "db.coll"
     .singleTarget .mortal [] 0 none 0 [5] [1] cid5 mgrIdle none
     register_example⟩

/-- C7: `getNamespaceForCursorId` consults the prefix map with the upper 32
bits of the id: in every reachable state it returns the namespace of each
live entry's id, returns that namespace for any id sharing a live
container's prefix even when no cursor with that id exists, and returns none
once no live entry carries the prefix (the prefix-map entry is removed
together with the emptied container). -/
theorem getNamespaceForCursorId_spec :
    ∀ m, Reachable m →
      (∀ p ∈ m.namespaceToContainerMap, ∀ q ∈ p.2.entryMap,
        getNamespaceForCursorId m q.1 = some p.1)
      ∧ (∀ p ∈ m.namespaceToContainerMap, ∀ cursorId : Nat,
          idPrefix cursorId = p.2.containerPrefix →
          getNamespaceForCursorId m cursorId = some p.1)
      ∧ (∀ cursorId : Nat,
          (∀ p ∈ m.namespaceToContainerMap, ∀ q ∈ p.2.entryMap,
            idPrefix q.1 ≠ idPrefix cursorId) →
          getNamespaceForCursorId m cursorId = none) := by
  intro m hr
  have hInv := inv_of_reachable hr
  have hby : ∀ p ∈ m.namespaceToContainerMap, ∀ cursorId : Nat,
      idPrefix cursorId = p.2.containerPrefix →
      getNamespaceForCursorId m cursorId = some p.1 := by
    intro p hp cursorId hpfx
    unfold getNamespaceForCursorId
    rw [hpfx]
    exact hInv.containerPrefixInMap p hp
  refine ⟨?_, hby, ?_⟩
  · intro p hp q hq
    exact hby p hp q.1 (hInv.entryIds p hp q hq).1
  · intro cursorId hnoshare
    cases hlook : lookupA (idPrefix cursorId)
        m.cursorIdPrefixToNamespaceMap with
    | none => exact hlook
    | some nssx =>
        exfalso
        have hmem := lookupA_mem hlook
        obtain ⟨container, hlook2, hcp⟩ :=
          hInv.prefixMapBacked (idPrefix cursorId, nssx) hmem
        have hcmem := lookupA_mem hlook2
        have hne := hInv.containersNonempty (nssx, container) hcmem
        obtain ⟨q, hq⟩ := List.exists_mem_of_ne_nil _ hne
        have h1 := (hInv.entryIds (nssx, container) hcmem q hq).1
        exact hnoshare (nssx, container) hcmem q hq (by rw [h1, hcp])

theorem getNamespaceForCursorId_spec_witness :
    getNamespaceForCursorId mgrIdle cid5 = some "db.coll"
    ∧ getNamespaceForCursorId mgrIdle (6 * 2 ^ 32 + 3) = none :=
  ⟨(getNamespaceForCursorId_spec mgrIdle reach_mgrIdle).1
     ("db.coll", ⟨5, [(cid5, entryIdle)]⟩) (by decide) (cid5, entryIdle)
     (by decide),
   (getNamespaceForCursorId_spec mgrIdle reach_mgrIdle).2.2 (6 * 2 ^ 32 + 3)
     (by decide)⟩

/-- C4: on a registry with distinct namespace keys and well-formed entries,
`killMortalCursorsInactiveSince(cutoff)` kills exactly the entries satisfying
"mortal ∧ last-active ≤ cutoff ∧ not currently pinned" and returns their
count: one cursor is destroyed per match, the surviving entries under every
namespace are exactly the non-matching ones, and in particular a pinned
entry is never killed or counted, regardless of its last-active time. -/
theorem killMortalCursorsInactiveSince_spec :
    ∀ (m : ClusterCursorManager) (cutoff : Nat),
      (m.namespaceToContainerMap.map Prod.fst).Nodup → AllWf m →
      ∃ m' killedList,
        killMortalCursorsInactiveSince m cutoff
          = some (countMortalInactive m cutoff, m', killedList)
        ∧ killedList.length = countMortalInactive m cutoff
        ∧ (∀ nss, entriesFor m' nss = (entriesFor m nss).filter
            (fun q => !(mortalInactive cutoff q.2)))
        ∧ (∀ nss q, q ∈ entriesFor m nss →
            q.2.operationUsingCursor.isSome = true →
            q ∈ entriesFor m' nss) := by
  intro m cutoff hnd hwf
  have hnp : ∀ (cursorId : Nat) (e : CursorEntry),
      mortalInactive cutoff e = true → e.operationUsingCursor = none := by
    intro cursorId e he
    simp only [mortalInactive, Bool.and_eq_true] at he
    exact Option.isNone_iff_eq_none.mp he.2
  obtain ⟨L', erased, killedList, hpassc, hlenc⟩ :=
    passContainers_filter hnp hwf
  have hfil : ∀ nss, entriesFor { m with
      namespaceToContainerMap := L',
      cursorIdPrefixToNamespaceMap :=
        eraseAllA erased m.cursorIdPrefixToNamespaceMap } nss
      = (entriesFor m nss).filter
          (fun q => !(mortalInactive cutoff q.2)) := by
    intro nss
    show (lookupA nss L').elim [] (fun c => c.entryMap)
        = ((lookupA nss m.namespaceToContainerMap).elim []
            (fun c => c.entryMap)).filter
            (fun q => !(mortalInactive cutoff q.2))
    cases hlook : lookupA nss m.namespaceToContainerMap with
    | none =>
        rw [passContainers_lookup_none hpassc hlook]
        rfl
    | some container =>
        obtain ⟨em, n1, k1, hpasse, hcase⟩ :=
          passContainers_lookup hnd hpassc hlook
        obtain ⟨k2, hpasse2, hk2⟩ := passEntries_filter hnp
          (fun q hq => hwf (nss, container) (lookupA_mem hlook) q hq)
        rw [hpasse] at hpasse2
        simp only [Option.some.injEq, Prod.mk.injEq] at hpasse2
        obtain ⟨hem, -⟩ := hpasse2
        rcases hcase with ⟨he, hl, -⟩ | ⟨he, hl⟩
        · rw [hl]
          exact he ▸ hem
        · rw [hl]
          exact hem
  refine ⟨{ m with
      namespaceToContainerMap := L',
      cursorIdPrefixToNamespaceMap :=
        eraseAllA erased m.cursorIdPrefixToNamespaceMap }, killedList,
    ?_, hlenc, hfil, ?_⟩
  · unfold killMortalCursorsInactiveSince killCursorsSatisfying
    rw [hpassc]
    rfl
  · intro nss q hq hpinned
    rw [hfil nss]
    refine List.mem_filter.mpr ⟨hq, ?_⟩
    cases hop : q.2.operationUsingCursor with
    | none =>
        rw [hop] at hpinned
        simp at hpinned
    | some o =>
        simp [mortalInactive, hop]

theorem killMortalCursorsInactiveSince_spec_witness :
    (mgrMix.namespaceToContainerMap.map Prod.fst).Nodup ∧ AllWf mgrMix
    ∧ countMortalInactive mgrMix 10 = 1
    ∧ (∃ m' killedList,
        killMortalCursorsInactiveSince mgrMix 10
          = some (countMortalInactive mgrMix 10, m', killedList)
        ∧ killedList.length = countMortalInactive mgrMix 10
        ∧ (∀ nss, entriesFor m' nss = (entriesFor mgrMix nss).filter
            (fun q => !(mortalInactive 10 q.2)))
        ∧ (∀ nss q, q ∈ entriesFor mgrMix nss →
            q.2.operationUsingCursor.isSome = true →
            q ∈ entriesFor m' nss)) :=
  ⟨by decide, by unfold AllWf; decide, by decide,
   killMortalCursorsInactiveSince_spec mgrMix 10 (by decide)
     (by unfold AllWf; decide)⟩

/-!
### The ring log: capacity and retention
-/

set_option maxRecDepth 10000

theorem shape_initial : ({} : CircularLogQueue).Shape :=
  ⟨by simp, by simp, by simp⟩

theorem retained_initial : ({} : CircularLogQueue).retained = [] := by
  simp [CircularLogQueue.retained, CircularLogQueue.count, retainedAux]

/-- A sample log event. -/
def ev0 : LogEvent := { type := .registerAttempt }

/-- C8 counterexample: pushing 512 events into the fresh queue does not leave
all 512 of them retained.  The ring encodes "empty" as `start == end`, so a
full ring can never hold 512 events: the 512th push evicts the oldest one. -/
theorem circularLog_counterexample :
    (CircularLogQueue.pushAll {} ex512).retained ≠ ex512 := by
  have h1 := retained_pushAll shape_initial ex512
  rw [retained_initial, List.nil_append] at h1
  intro hcontra
  rw [hcontra] at h1
  have hlen : ex512.length = (lastN 511 ex512).length :=
    congrArg List.length h1
  simp only [lastN, List.length_drop, ex512, List.length_map,
    List.length_range] at hlen
  omega

/-- C8 (amended): the diagnostic log is a fixed ring of 512 slots; `push`
writes at the end index, advances it modulo 512, and evicts the oldest
retained event exactly when 511 events are already retained.  Because a full
ring is encoded as `start == end`, one slot is always sacrificed: at all
times the log retains the 511 (not 512) most recent events, in order. -/
theorem circularLog_ring :
    ({} : CircularLogQueue).events.length = 512
    ∧ (∀ (q : CircularLogQueue) (e : LogEvent), q.Shape →
        (q.push e).events = q.events.set q.endIdx e
        ∧ (q.push e).endIdx = (q.endIdx + 1) % 512
        ∧ (q.push e).Shape
        ∧ (q.push e).retained
            = if q.count < 511 then q.retained ++ [e]
              else q.retained.drop 1 ++ [e])
    ∧ ∀ es, (CircularLogQueue.pushAll {} es).retained = lastN 511 es := by
  refine ⟨by simp, ?_, ?_⟩
  · intro q e hq
    refine ⟨?_, ?_, shape_push hq e, retained_push hq e⟩
    · simp only [CircularLogQueue.push]
      split <;> rfl
    · obtain ⟨hlen, -, -⟩ := hq
      simp only [CircularLogQueue.push]
      split <;> simp [List.length_set, hlen]
  · intro es
    rw [retained_pushAll shape_initial es, retained_initial, List.nil_append]

theorem circularLog_ring_witness :
    ({} : CircularLogQueue).Shape
    ∧ (CircularLogQueue.push {} ev0).retained
        = (if ({} : CircularLogQueue).count < 511 then
             ({} : CircularLogQueue).retained ++ [ev0]
           else ({} : CircularLogQueue).retained.drop 1 ++ [ev0])
    ∧ (CircularLogQueue.pushAll {} ex512).retained = lastN 511 ex512 :=
  ⟨shape_initial, (circularLog_ring.2.1 {} ev0 shape_initial).2.2.2,
   circularLog_ring.2.2 ex512⟩

/-!
### The pinned handle: at most one check-in
-/

/-- Checking in as exhausted always reports the checked-in cursor (marked
killed) as the destroyed one. -/
theorem checkIn_exhausted_destroyed {m : ClusterCursorManager}
    {cursor : ClusterClientCursor} {nss : String} {cursorId : Nat} {now : Nat}
    {m1 : ClusterCursorManager} {destroyed : Option ClusterClientCursor}
    (h : checkInCursor m cursor nss cursorId CursorState.exhausted now
      = some (m1, destroyed)) :
    destroyed = some { cursor with killed := true } := by
  unfold checkInCursor at h
  cases hget : getEntry m nss cursorId with
  | none => rw [hget] at h; cases h
  | some entry =>
      rw [hget] at h
      dsimp only at h
      cases hret : entry.returnCursor cursor with
      | none => rw [hret] at h; cases h
      | some entry1 =>
          rw [hret] at h
          dsimp only at h
          split at h
          · cases h
            rfl
          · rename_i hcond
            exact absurd (Or.inl rfl) hcond

/-- `mgrPinnedLive` after its only entry is erased on the kill path. -/
def mgrKilled : ClusterCursorManager :=
  eraseEntryAndMaybeContainer mgrPinnedLive "db.coll" cid5

/-- C9: a pinned handle checks its cursor in at most once.  After a successful
explicit `returnCursor` the handle owns no cursor, and dropping it performs no
second check-in and no kill.  Dropping a handle that still owns its cursor
runs the return-and-kill path exactly once: the cursor is marked to be killed
and ownership passes back to the manager, which destroys it. -/
theorem pinnedCursor_checkin_once :
    ∀ (p : PinnedCursor) (cursorState : CursorState)
      (m : ClusterCursorManager) (now : Nat),
      (∀ p1 m1 d, PinnedCursor.returnCursor p cursorState m now
          = some (p1, m1, d) →
        p1.cursor = none
        ∧ ∀ m2 now2, PinnedCursor.drop p1 m2 now2
            = some (p1, m2, none, false))
      ∧ (∀ c, p.cursor = some c →
          (PinnedCursor.returnAndKillCursor p m now = none →
            PinnedCursor.drop p m now = none)
          ∧ ∀ p1 m1 d, PinnedCursor.returnAndKillCursor p m now
              = some (p1, m1, d) →
            PinnedCursor.drop p m now = some (p1, m1, d, true)
            ∧ p1.cursor = none
            ∧ d = some { c with killed := true }) := by
  intro p cursorState m now
  constructor
  · intro p1 m1 d h
    unfold PinnedCursor.returnCursor at h
    cases hc : p.cursor with
    | none => rw [hc] at h; cases h
    | some c =>
        rw [hc] at h
        dsimp only at h
        cases hchk : checkInCursor m c p.nss p.cursorId cursorState now with
        | none => rw [hchk] at h; cases h
        | some r =>
            obtain ⟨m2, destroyed⟩ := r
            rw [hchk] at h
            dsimp only at h
            cases h
            exact ⟨rfl, fun m3 now2 => rfl⟩
  · intro c hc
    constructor
    · intro hnone
      unfold PinnedCursor.drop
      rw [hc]
      dsimp only
      rw [hnone]
    · intro p1 m1 d h
      refine ⟨?_, ?_, ?_⟩
      · unfold PinnedCursor.drop
        rw [hc]
        dsimp only
        rw [h]
      · unfold PinnedCursor.returnAndKillCursor at h
        rw [hc] at h
        dsimp only at h
        cases hchk : checkInCursor m { c with killed := true } p.nss
            p.cursorId CursorState.exhausted now with
        | none => rw [hchk] at h; cases h
        | some r =>
            obtain ⟨m2, destroyed⟩ := r
            rw [hchk] at h
            dsimp only at h
            cases h
            rfl
      · unfold PinnedCursor.returnAndKillCursor at h
        rw [hc] at h
        dsimp only at h
        cases hchk : checkInCursor m { c with killed := true } p.nss
            p.cursorId CursorState.exhausted now with
        | none => rw [hchk] at h; cases h
        | some r =>
            obtain ⟨m2, destroyed⟩ := r
            rw [hchk] at h
            dsimp only at h
            cases h
            have hd := checkIn_exhausted_destroyed hchk
            rw [hd]

theorem pinnedCursor_checkin_once_witness :
    (pinned0.returnCursor CursorState.notExhausted mgrPinnedLive 1
        = some ({}, mgrReturned, none)
      ∧ ({} : PinnedCursor).cursor = none
      ∧ PinnedCursor.drop {} mgrReturned 2
          = some ({}, mgrReturned, none, false))
    ∧ pinned0.cursor = some cursor0
    ∧ pinned0.returnAndKillCursor mgrPinnedLive 1
        = some ({}, mgrKilled, some { cursor0 with killed := true })
    ∧ pinned0.drop mgrPinnedLive 1
        = some ({}, mgrKilled, some { cursor0 with killed := true }, true) :=
  have h1 : pinned0.returnCursor CursorState.notExhausted mgrPinnedLive 1
      = some ({}, mgrReturned, none) := rfl
  have h2 : pinned0.returnAndKillCursor mgrPinnedLive 1
      = some ({}, mgrKilled, some { cursor0 with killed := true }) := rfl
  ⟨⟨h1,
    ((pinnedCursor_checkin_once pinned0 CursorState.notExhausted mgrPinnedLive
        1).1 {} mgrReturned none h1).1,
    ((pinnedCursor_checkin_once pinned0 CursorState.notExhausted mgrPinnedLive
        1).1 {} mgrReturned none h1).2 mgrReturned 2⟩,
   rfl, h2,
   (((pinnedCursor_checkin_once pinned0 CursorState.notExhausted mgrPinnedLive
        1).2 cursor0 rfl).2 {} mgrKilled
      (some { cursor0 with killed := true }) h2).1⟩

end CCMgr
